import Mathlib

/-!
# StKnxCoupler: the ordered address index, the life cycle and the periodic tasks

A shallow embedding of `src/StKnxCoupler.cpp`.

* Machine integers are `Nat`; every place where a `byte` or `word` could wrap carries an
  explicit `% 256` or `% 65536`.
* A pointer that may be `NULL` is an `Option`.
* The calls the coupler makes through its callback pointers are appended to the ghost
  field `Coupler.calls`, oldest first, so that "the callback was invoked once" is a
  statement about the state.
* A call through a null callback pointer has no result: the operation returns `none`.
* The clocks `micros()` and `millis()` are arguments of the operations that read them.
* `malloc` is assumed to succeed.
* `listSize` is a `byte`: the statements on attached lists take lists of at most 255
  objects and pass their length.
* A read past the end of a block delivers whatever the `Beyond` argument holds there; the
  statements hold for every such argument.
-/

set_option autoImplicit false

namespace StKnx

/-! ## Collaborators -/

/-- Modelled from the spec: class `KnxComObject` (its header is not among the sources).
A communication object has a 16-bit bus address and a communication-enabled flag
(spec §3, §6: `address() → uint16`, `communicationEnabled() → bool`). -/
structure KnxComObject where
  /-- The bus address. -/
  addr : Nat
  /-- The communication indicator, `GetIndicator() & KNX_COM_OBJ_C_INDICATOR`. -/
  com : Bool
deriving DecidableEq, Repr

/-- The `word` returned by `GetAddr()`. -/
def KnxComObject.GetAddr (o : KnxComObject) : Nat := o.addr % 65536

/-- Modelled from the spec: class `KnxTelegram` (its header is not among the sources).
A telegram carries a source address, a target address, payload bytes and a checksum
(spec §3); the coupler never looks at the payload. -/
structure KnxTelegram where
  /-- The source address. -/
  sourceAddress : Nat
  /-- The target address. -/
  targetAddress : Nat
  /-- The payload bytes. -/
  payload : List Nat
  /-- The checksum byte. -/
  checksum : Nat
deriving DecidableEq, Repr

/-- The `word` returned by `GetSourceAddress()`. -/
def KnxTelegram.GetSourceAddress (t : KnxTelegram) : Nat := t.sourceAddress % 65536

/-- The `word` returned by `GetTargetAddress()`. -/
def KnxTelegram.GetTargetAddress (t : KnxTelegram) : Nat := t.targetAddress % 65536

/-- Modelled from the spec: `SetSourceAddress(word)` overwrites the source address. -/
def KnxTelegram.SetSourceAddress (t : KnxTelegram) (a : Nat) : KnxTelegram :=
  { t with sourceAddress := a % 65536 }

/-- Modelled from the spec: `UpdateChecksum()` recomputes the checksum after a mutation.
The checksum function of the telegram class is not among the sources; `cks` stands
for it. -/
def KnxTelegram.UpdateChecksum (cks : KnxTelegram → Nat) (t : KnxTelegram) : KnxTelegram :=
  { t with checksum := cks t % 256 }

/-- Modelled from the spec: `IsChecksumCorrect()`, the stored checksum is the computed
one. -/
def KnxTelegram.IsChecksumCorrect (cks : KnxTelegram → Nat) (t : KnxTelegram) : Bool :=
  t.checksum == cks t % 256

/-- A cleared telegram, the content of a telegram member before anything is copied into
it. -/
def KnxTelegram.cleared : KnxTelegram := ⟨0, 0, [], 0⟩

/-! ## Coupler state -/

/-- Modelled from the spec: the reception states (the enum is declared in the header),
in the order of spec §3. -/
inductive RxState where
  | RX_RESET
  | RX_INIT
  | RX_IDLE_WAITING_FOR_CTRL_FIELD
  | RX_EIB_TELEGRAM_RECEPTION_STARTED
  | RX_EIB_TELEGRAM_RECEPTION_LENGTH_INVALID
  | RX_EIB_TELEGRAM_RECEPTION_ADDRESSED
  | RX_EIB_TELEGRAM_RECEPTION_NOT_ADDRESSED
deriving DecidableEq, Repr

/-- Modelled from the spec: the transmission states (the enum is declared in the
header), in the order of spec §3. -/
inductive TxState where
  | TX_RESET
  | TX_INIT
  | TX_IDLE
  | TX_TELEGRAM_SENDING_ONGOING
  | TX_WAITING_ACK
deriving DecidableEq, Repr

/-- The events handed to `_evtCallbackFct`. -/
inductive BusCouplerEvent where
  | BUSCOUPLER_EVENT_RECEIVED_EIB_TELEGRAM
  | BUSCOUPLER_EVENT_EIB_TELEGRAM_RECEPTION_ERROR
deriving DecidableEq, Repr

/-- The acknowledgment statuses handed to `_tx.ackFctPtr`. -/
inductive TxAck where
  | NO_ANSWER_TIMEOUT
deriving DecidableEq, Repr

/-- One call through a callback pointer of the coupler. -/
inductive Call where
  /-- The call `_extTxCb(&t)`. -/
  | transmit (t : KnxTelegram)
  /-- The call `_evtCallbackFct(e)`. -/
  | event (e : BusCouplerEvent)
  /-- The call `_tx.ackFctPtr(a)`. -/
  | ack (a : TxAck)
deriving DecidableEq, Repr

/-- The `_rx` member. -/
structure RxContext where
  /-- The field `_rx.state`. -/
  state : RxState
  /-- The field `_rx.receivedTelegram`. -/
  receivedTelegram : KnxTelegram
  /-- The field `_rx.addressedComObjectIndex`. -/
  addressedComObjectIndex : Nat
deriving DecidableEq, Repr

/-- The `_tx` member. -/
structure TxContext where
  /-- The field `_tx.state`. -/
  state : TxState
  /-- The field `_tx.sentTelegram`, a pointer. -/
  sentTelegram : Option KnxTelegram
  /-- Whether `_tx.ackFctPtr` is set. -/
  ackFctPtr : Bool
  /-- The field `_tx.nbRemainingBytes`. -/
  nbRemainingBytes : Nat
  /-- The field `_tx.txByteIndex`. -/
  txByteIndex : Nat
deriving DecidableEq, Repr

/-- `KNX_BUSCOUPLER_OK`. -/
def KNX_BUSCOUPLER_OK : Nat := 0

/-- `KNX_BUSCOUPLER_ERROR`. -/
def KNX_BUSCOUPLER_ERROR : Nat := 255

/-- `KNX_BUSCOUPLER_ERROR_NOT_INIT_STATE`. -/
def KNX_BUSCOUPLER_ERROR_NOT_INIT_STATE : Nat := 254

/-- The members of a `StKnxCoupler`, the three file-level statics of the reception path,
and the ghost log of callback invocations. -/
structure Coupler where
  /-- The transmit function `_extTxCb`; the function gives the result code it returns. -/
  extTxCb : Option (KnxTelegram → Nat)
  /-- The member `_physicalAddr`. -/
  physicalAddr : Nat
  /-- The member `_mode`. -/
  mode : Nat
  /-- The member `_rx`. -/
  rx : RxContext
  /-- The member `_tx`. -/
  tx : TxContext
  /-- The member `_stateIndication`. -/
  stateIndication : Nat
  /-- Whether `_evtCallbackFct` is set. -/
  evtCallbackFct : Bool
  /-- The member `_comObjectsList`. -/
  comObjectsList : Option (List KnxComObject)
  /-- The member `_assignedComObjectsNb`, a byte. -/
  assignedComObjectsNb : Nat
  /-- The member `_orderedIndexTable`, a block of `_assignedComObjectsNb` bytes. -/
  orderedIndexTable : Option (List Nat)
  /-- The static `telegram`. -/
  telegram : KnxTelegram
  /-- The static `addressedComObjectIndex`. -/
  addressedComObjectIndex : Nat
  /-- The static `lastByteRxTimeMicrosec`. -/
  lastByteRxTimeMicrosec : Nat
  /-- Ghost: the callback invocations made so far, oldest first. -/
  calls : List Call

open RxState TxState BusCouplerEvent

/-- The constructor `StKnxCoupler::StKnxCoupler(cb, physicalAddr, mode)`. -/
def StKnxCoupler (cb : Option (KnxTelegram → Nat)) (physicalAddr mode : Nat) : Coupler where
  extTxCb := cb
  physicalAddr := physicalAddr % 65536
  mode := mode
  rx := ⟨RX_RESET, KnxTelegram.cleared, 0⟩
  tx := ⟨TX_RESET, none, false, 0, 0⟩
  stateIndication := 0
  evtCallbackFct := false
  comObjectsList := none
  assignedComObjectsNb := 0
  orderedIndexTable := none
  telegram := KnxTelegram.cleared
  addressedComObjectIndex := 0
  lastByteRxTimeMicrosec := 0
  calls := []

/-- The method `StKnxCoupler::Reset`. -/
def Reset (s : Coupler) : Nat × Coupler :=
  (KNX_BUSCOUPLER_OK, { s with rx.state := RX_INIT, tx.state := TX_INIT })

/-- The method `StKnxCoupler::Init`. -/
def Init (s : Coupler) : Nat × Coupler :=
  (KNX_BUSCOUPLER_OK, { s with rx.state := RX_IDLE_WAITING_FOR_CTRL_FIELD, tx.state := TX_IDLE })

/-! ## AttachComObjectsList -/

/-- The object `comObjectsList[index]`; the caller owes `index < listSize ≤` the length
of the array, so the default is never looked at on a well-formed call. -/
def objAt (comObjectsList : List KnxComObject) (index : Nat) : KnxComObject :=
  comObjectsList.getD index ⟨0, false⟩

/-- The local definition `IS_COM(index)`. -/
def IS_COM (comObjectsList : List KnxComObject) (index : Nat) : Bool :=
  (objAt comObjectsList index).com

/-- The local definition `ADDR(index)`. -/
def ADDR (comObjectsList : List KnxComObject) (index : Nat) : Nat :=
  (objAt comObjectsList index).GetAddr

/-- The counting loop `for (i...) if (IS_COM(i)) _assignedComObjectsNb++;` run over the
indices `is`, starting from the count `nb`. -/
def countLoop (l : List KnxComObject) (is : List Nat) (nb : Nat) : Nat :=
  is.foldl (fun nb i => if IS_COM l i then (nb + 1) % 256 else nb) nb

/-- The inner loop of the duplicate deduction for the object `i`, run over the indices
`js`: a duplicate at a lower index leaves the loop (`break`), every other duplicate
decrements the byte `nb`. -/
def deductInner (l : List KnxComObject) (i : Nat) : List Nat → Nat → Nat
  | [], nb => nb
  | j :: js, nb =>
    if i ≠ j ∧ ADDR l j = ADDR l i ∧ IS_COM l j = true then
      if j < i then nb
      else deductInner l i js ((nb + 255) % 256)
    else deductInner l i js nb

/-- The outer loop of the duplicate deduction, run over the indices `is`. -/
def deductLoop (l : List KnxComObject) (listSize : Nat) (is : List Nat) (nb : Nat) : Nat :=
  is.foldl (fun nb i => if ¬ IS_COM l i = true then nb
    else deductInner l i (List.range listSize) nb) nb

/-- The inner loop of the table construction for the table position `i`, run over the
indices `js`, on the pair of `foundMin` and the table. -/
def selectLoop (l : List KnxComObject) (i minMin : Nat) (js : List Nat)
    (st : Nat × List Nat) : Nat × List Nat :=
  js.foldl (fun st j =>
    if IS_COM l j = true ∧ ADDR l j ≥ minMin ∧ ADDR l j ≤ st.1 then (ADDR l j, st.2.set i j)
    else st) st

/-- The outer loop of the table construction, run over the table positions `is`, on
`minMin`, `foundMin` and the table. -/
def orderLoop (l : List KnxComObject) (listSize : Nat) :
    List Nat → Nat → Nat → List Nat → List Nat
  | [], _, _, tbl => tbl
  | i :: is, minMin, foundMin, tbl =>
    let st := selectLoop l i minMin (List.range listSize) (foundMin, tbl)
    orderLoop l listSize is ((st.1 + 1) % 65536) 0xFFFF st.2

/-- The creation of the ordered index table: `malloc`, `memset` to 255, then the selection
loops. -/
def buildOrderedIndexTable (l : List KnxComObject) (listSize nb : Nat) : List Nat :=
  orderLoop l listSize (List.range nb) 0x0000 0xFFFF (List.replicate nb 255)

/-- The method `StKnxCoupler::AttachComObjectsList(KnxComObject**, byte)`: the result code
and the coupler afterwards. `comObjectsList = none` is the null pointer. -/
def AttachComObjectsList (s : Coupler) (comObjectsList : Option (List KnxComObject))
    (listSize : Nat) : Nat × Coupler :=
  if s.rx.state ≠ RX_INIT ∨ s.tx.state ≠ TX_INIT then
    (KNX_BUSCOUPLER_ERROR_NOT_INIT_STATE, s)
  else
    let s1 : Coupler :=
      if s.orderedIndexTable.isSome then
        { s with orderedIndexTable := none, comObjectsList := none, assignedComObjectsNb := 0 }
      else s
    match comObjectsList with
    | none => (KNX_BUSCOUPLER_OK, s1)
    | some l =>
      if listSize = 0 then (KNX_BUSCOUPLER_OK, s1)
      else
        let nb1 := countLoop l (List.range listSize) s1.assignedComObjectsNb
        let s2 : Coupler := { s1 with assignedComObjectsNb := nb1 }
        if s2.assignedComObjectsNb = 0 then (KNX_BUSCOUPLER_OK, s2)
        else
          let nb2 := deductLoop l listSize (List.range listSize) s2.assignedComObjectsNb
          let s3 : Coupler := { s2 with assignedComObjectsNb := nb2 }
          let s4 : Coupler := { s3 with comObjectsList := some l }
          let tbl := buildOrderedIndexTable l listSize s4.assignedComObjectsNb
          (KNX_BUSCOUPLER_OK, { s4 with orderedIndexTable := some tbl })

/-! ## IsAddressAssigned -/

/-- What the machine holds outside the blocks the coupler owns. `IsAddressAssigned` can
read one byte past the end of the index table before it tests `i <= searchIndexStop`;
the theorems below hold whatever these reads deliver. -/
structure Beyond where
  /-- The byte found at `_orderedIndexTable[i]` for `i` past the end of the block. -/
  tableByte : Nat → Nat
  /-- The address delivered by `_comObjectsList[k]->GetAddr()` for `k` past the end. -/
  objAddr : Nat → Nat

/-- The read `_orderedIndexTable[i]`. -/
def tableAt (s : Coupler) (m : Beyond) (i : Nat) : Nat :=
  match s.orderedIndexTable with
  | some tbl => tbl.getD i (m.tableByte i % 256)
  | none => m.tableByte i % 256

/-- The read `_comObjectsList[k]->GetAddr()`. -/
def addrAt (s : Coupler) (m : Beyond) (k : Nat) : Nat :=
  match s.comObjectsList with
  | some l => if k < l.length then ADDR l k else m.objAddr k % 65536
  | none => m.objAddr k % 65536

/-- The loop `for (i=4; _assignedComObjectsNb >> i; i++) divisionCounter++;` on at most
`fuel` iterations. -/
def divisionLoop (nb : Nat) : Nat → Nat → Nat → Nat
  | 0, _, divisionCounter => divisionCounter
  | fuel + 1, i, divisionCounter =>
    if nb >>> i ≠ 0 then divisionLoop nb fuel ((i + 1) % 256) ((divisionCounter + 1) % 256)
    else divisionCounter

/-- The loop `while (divisionCounter)`: the search range after the halving steps, as
the pair of `searchIndexStart` and `searchIndexStop`. -/
def reduceLoop (s : Coupler) (m : Beyond) (addr : Nat) : Nat → Nat → Nat → Nat → Nat × Nat
  | 0, searchIndexStart, searchIndexStop, _ => (searchIndexStart, searchIndexStop)
  | divisionCounter + 1, searchIndexStart, searchIndexStop, searchIndexRange =>
    let searchIndexRange := searchIndexRange >>> 1
    if tableAt s m (searchIndexStart + searchIndexRange) ≠ 255
        ∧ addr ≥ addrAt s m (tableAt s m (searchIndexStart + searchIndexRange)) then
      reduceLoop s m addr divisionCounter ((searchIndexStart + searchIndexRange) % 256)
        searchIndexStop searchIndexRange
    else
      reduceLoop s m addr divisionCounter searchIndexStart
        ((searchIndexStop + 256 - searchIndexRange) % 256) searchIndexRange

/-- The final linear scan `for (i = searchIndexStart; ...; i++);` on at most `fuel`
iterations: the value of `i` when the loop is left. -/
def scanLoop (s : Coupler) (m : Beyond) (addr searchIndexStop : Nat) : Nat → Nat → Nat
  | 0, i => i
  | fuel + 1, i =>
    if tableAt s m i ≠ 255 ∧ tableAt s m i ≤ s.assignedComObjectsNb
        ∧ addrAt s m (tableAt s m i) ≠ addr ∧ i ≤ searchIndexStop then
      scanLoop s m addr searchIndexStop fuel ((i + 1) % 256)
    else i

/-- The method `StKnxCoupler::IsAddressAssigned(word addr, byte &index)`: `some index`
when it returns true and has written `index`, `none` when it returns false. -/
def IsAddressAssigned (s : Coupler) (m : Beyond) (addr : Nat) : Option Nat :=
  if s.assignedComObjectsNb = 0 then none
  else
    let divisionCounter := divisionLoop s.assignedComObjectsNb 256 4 0
    let r := reduceLoop s m addr divisionCounter 0 ((s.assignedComObjectsNb + 255) % 256)
      s.assignedComObjectsNb
    let i := scanLoop s m addr r.2 256 r.1
    if i > r.2 then none else some (tableAt s m i)

/-! ## SendTelegram -/

/-- The method `StKnxCoupler::SendTelegram`: the result code, the coupler afterwards and
the telegram afterwards (it is passed by reference); `none` when the call goes through a
null `_extTxCb`. -/
def SendTelegram (cks : KnxTelegram → Nat) (s : Coupler) (sentTelegram : KnxTelegram) :
    Option (Nat × Coupler × KnxTelegram) :=
  if s.tx.state ≠ TX_IDLE then some (KNX_BUSCOUPLER_ERROR, s, sentTelegram)
  else
    let t : KnxTelegram :=
      if sentTelegram.GetSourceAddress ≠ s.physicalAddr then
        (sentTelegram.SetSourceAddress s.physicalAddr).UpdateChecksum cks
      else sentTelegram
    let s1 : Coupler := { s with tx.state := TX_IDLE }
    match s1.extTxCb with
    | none => none
    | some cb => some (cb t, { s1 with calls := s1.calls ++ [Call.transmit t] }, t)

/-! ## The reception and transmission tasks -/

/-- The function `TimeDeltaWord(word now, word before)`: the difference, cast to `word`. -/
def TimeDeltaWord (now before : Nat) : Nat :=
  (now % 65536 + 65536 - before % 65536) % 65536

/-- Modelled from the spec: the numeric values of the reception states, the enum of the
header taken in the order of spec §3. `RXTask` compares a state with
`RX_EIB_TELEGRAM_RECEPTION_STARTED`. -/
def RxState.toNat : RxState → Nat
  | RX_RESET => 0
  | RX_INIT => 1
  | RX_IDLE_WAITING_FOR_CTRL_FIELD => 2
  | RX_EIB_TELEGRAM_RECEPTION_STARTED => 3
  | RX_EIB_TELEGRAM_RECEPTION_LENGTH_INVALID => 4
  | RX_EIB_TELEGRAM_RECEPTION_ADDRESSED => 5
  | RX_EIB_TELEGRAM_RECEPTION_NOT_ADDRESSED => 6

/-- The call `_evtCallbackFct(e)`; `none` when the call goes through a null pointer. -/
def emitEvent (e : BusCouplerEvent) (s : Coupler) : Option Coupler :=
  if s.evtCallbackFct = true then some { s with calls := s.calls ++ [Call.event e] }
  else none

/-- The two statements `t.Copy(_rx.receivedTelegram);` and
`_rx.addressedComObjectIndex = addressedComObjectIndex;` that precede the notification
of a received telegram. Modelled from the spec: `Copy` copies the telegram into its
argument. -/
def stageReceived (t : KnxTelegram) (s : Coupler) : Coupler :=
  { s with
    rx.receivedTelegram := t
    rx.addressedComObjectIndex := s.addressedComObjectIndex }

/-- The method `StKnxCoupler::SetReceivedTelegram`: the coupler afterwards, `none` when
the notification goes through a null `_evtCallbackFct`. `IsAddressAssigned` writes the
static `addressedComObjectIndex` when it returns true. -/
def SetReceivedTelegram (cks : KnxTelegram → Nat) (m : Beyond) (s : Coupler)
    (rxTelegram : KnxTelegram) : Option Coupler :=
  match IsAddressAssigned s m rxTelegram.GetTargetAddress with
  | none => some s
  | some index =>
    let s1 : Coupler := { s with addressedComObjectIndex := index }
    if rxTelegram.IsChecksumCorrect cks = true then
      (emitEvent BusCouplerEvent.BUSCOUPLER_EVENT_RECEIVED_EIB_TELEGRAM
        (stageReceived rxTelegram s1)).map
        (fun (s2 : Coupler) => { s2 with rx.state := RX_IDLE_WAITING_FOR_CTRL_FIELD })
    else some s1

/-- The method `StKnxCoupler::RXTask`: the coupler afterwards, `none` when a
notification goes through a null `_evtCallbackFct`. `micros` is the reading of the
microsecond clock. -/
def RXTask (cks : KnxTelegram → Nat) (micros : Nat) (s : Coupler) : Option Coupler :=
  if s.extTxCb.isSome = true then
    match s.rx.state with
    | RX_EIB_TELEGRAM_RECEPTION_ADDRESSED =>
      if s.telegram.IsChecksumCorrect cks = true then
        (emitEvent BusCouplerEvent.BUSCOUPLER_EVENT_RECEIVED_EIB_TELEGRAM
          (stageReceived s.telegram s)).map
          (fun (s2 : Coupler) => { s2 with rx.state := RX_IDLE_WAITING_FOR_CTRL_FIELD })
      else some s
    | _ => some s
  else if s.rx.state.toNat ≥ RX_EIB_TELEGRAM_RECEPTION_STARTED.toNat then
    let nowTime := micros % 65536
    if TimeDeltaWord nowTime s.lastByteRxTimeMicrosec > 2000 then
      (match s.rx.state with
        | RX_EIB_TELEGRAM_RECEPTION_STARTED =>
          emitEvent BusCouplerEvent.BUSCOUPLER_EVENT_EIB_TELEGRAM_RECEPTION_ERROR s
        | RX_EIB_TELEGRAM_RECEPTION_LENGTH_INVALID =>
          emitEvent BusCouplerEvent.BUSCOUPLER_EVENT_EIB_TELEGRAM_RECEPTION_ERROR s
        | RX_EIB_TELEGRAM_RECEPTION_ADDRESSED =>
          if s.telegram.IsChecksumCorrect cks = true then
            emitEvent BusCouplerEvent.BUSCOUPLER_EVENT_RECEIVED_EIB_TELEGRAM
              (stageReceived s.telegram s)
          else emitEvent BusCouplerEvent.BUSCOUPLER_EVENT_EIB_TELEGRAM_RECEPTION_ERROR s
        | _ => some s).map
        (fun (s2 : Coupler) => { s2 with rx.state := RX_IDLE_WAITING_FOR_CTRL_FIELD })
    else some s
  else some s

/-- The method `StKnxCoupler::TXTask`. After a comment, its first statement is `return;`:
the switch on `_tx.state` that follows in the source is never reached. -/
def TXTask (s : Coupler) : Coupler := s

/-- The statements of `TXTask` that follow its `return;`, which no call reaches: what
they would do to the coupler and to the function's static `sentMessageTimeMillisec`, on
the clock reading `millis`; `none` when the call goes through a null `_tx.ackFctPtr`. -/
def TXTaskAfterReturn (millis sentMessageTimeMillisec : Nat) (s : Coupler) :
    Option (Coupler × Nat) :=
  match s.tx.state with
  | TX_WAITING_ACK =>
    let nowTime := millis % 65536
    if TimeDeltaWord nowTime sentMessageTimeMillisec > 500 then
      if s.tx.ackFctPtr = true then
        some ({ s with
                calls := s.calls ++ [Call.ack TxAck.NO_ANSWER_TIMEOUT]
                tx.state := TX_IDLE }, sentMessageTimeMillisec)
      else none
    else some (s, sentMessageTimeMillisec)
  | TX_TELEGRAM_SENDING_ONGOING =>
    if s.rx.state ≠ RX_EIB_TELEGRAM_RECEPTION_STARTED then
      if s.tx.nbRemainingBytes = 1 then
        some ({ s with tx.state := TX_WAITING_ACK }, millis % 65536)
      else
        some ({ s with
                tx.txByteIndex := (s.tx.txByteIndex + 1) % 256
                tx.nbRemainingBytes := (s.tx.nbRemainingBytes + 255) % 256 },
          sentMessageTimeMillisec)
    else some (s, sentMessageTimeMillisec)
  | _ => some (s, sentMessageTimeMillisec)

/-! ## IsAddressAssigned with checked indexing -/

/-- The read `_orderedIndexTable[i]`, `none` outside the block. -/
def tableAt? (s : Coupler) (i : Nat) : Option Nat :=
  match s.orderedIndexTable with
  | some tbl => tbl[i]?
  | none => none

/-- The read `_comObjectsList[k]->GetAddr()`, `none` outside the list. -/
def addrAt? (s : Coupler) (k : Nat) : Option Nat :=
  match s.comObjectsList with
  | some l => if k < l.length then some (ADDR l k) else none
  | none => none

/-- The loop `while (divisionCounter)` with checked indexing: `none` when a read falls
outside its block. The operands of `&&` are evaluated from left to right. -/
def reduceLoopChecked (s : Coupler) (addr : Nat) :
    Nat → Nat → Nat → Nat → Option (Nat × Nat)
  | 0, searchIndexStart, searchIndexStop, _ => some (searchIndexStart, searchIndexStop)
  | divisionCounter + 1, searchIndexStart, searchIndexStop, searchIndexRange =>
    let searchIndexRange := searchIndexRange >>> 1
    match tableAt? s (searchIndexStart + searchIndexRange) with
    | none => none
    | some e =>
      if e ≠ 255 then
        match addrAt? s e with
        | none => none
        | some a =>
          if addr ≥ a then
            reduceLoopChecked s addr divisionCounter
              ((searchIndexStart + searchIndexRange) % 256) searchIndexStop searchIndexRange
          else
            reduceLoopChecked s addr divisionCounter searchIndexStart
              ((searchIndexStop + 256 - searchIndexRange) % 256) searchIndexRange
      else
        reduceLoopChecked s addr divisionCounter searchIndexStart
          ((searchIndexStop + 256 - searchIndexRange) % 256) searchIndexRange

/-- The final linear scan with checked indexing: `none` when a read falls outside its
block. The operands of `&&` are evaluated from left to right, the test
`i <= searchIndexStop` last. -/
def scanLoopChecked (s : Coupler) (addr searchIndexStop : Nat) : Nat → Nat → Option Nat
  | 0, i => some i
  | fuel + 1, i =>
    match tableAt? s i with
    | none => none
    | some e =>
      if e ≠ 255 ∧ e ≤ s.assignedComObjectsNb then
        match addrAt? s e with
        | none => none
        | some a =>
          if a ≠ addr ∧ i ≤ searchIndexStop then
            scanLoopChecked s addr searchIndexStop fuel ((i + 1) % 256)
          else some i
      else some i

/-- The method `StKnxCoupler::IsAddressAssigned` with checked indexing: `none` when a
read falls outside its block, `some r` with the result `r` of the method otherwise. -/
def IsAddressAssignedChecked (s : Coupler) (addr : Nat) : Option (Option Nat) :=
  if s.assignedComObjectsNb = 0 then some none
  else
    let divisionCounter := divisionLoop s.assignedComObjectsNb 256 4 0
    match reduceLoopChecked s addr divisionCounter 0 ((s.assignedComObjectsNb + 255) % 256)
        s.assignedComObjectsNb with
    | none => none
    | some r =>
      match scanLoopChecked s addr r.2 256 r.1 with
      | none => none
      | some i => if i > r.2 then some none else (tableAt? s i).map some

/-! ## Vocabulary of the statements -/

/-- The object `j` is a duplicate of the object `i`: the test of the deduction loop. -/
def isDup (l : List KnxComObject) (i j : Nat) : Bool :=
  decide (i ≠ j ∧ ADDR l j = ADDR l i ∧ IS_COM l j = true)

/-- The number of decrements the deduction loop makes for the object `i`. -/
def deductions (l : List KnxComObject) (listSize i : Nat) : Nat :=
  if IS_COM l i = true then
    if ∃ j ∈ List.range listSize, isDup l i j = true ∧ j < i then 0
    else (List.range listSize).countP (isDup l i)
  else 0

/-- The object `i` has the communication flag and no object before it has both the flag
and the same address. -/
def firstCom (l : List KnxComObject) (i : Nat) : Prop :=
  IS_COM l i = true ∧ ∀ j < i, ¬ (IS_COM l j = true ∧ ADDR l j = ADDR l i)

instance (l : List KnxComObject) (i : Nat) : Decidable (firstCom l i) := by
  unfold firstCom; infer_instance

/-- The addresses of the objects with the communication flag among the first `n`. -/
def comAddrs (l : List KnxComObject) (n : Nat) : Finset Nat :=
  ((Finset.range n).filter (fun j => IS_COM l j = true)).image (ADDR l)

/-- What the table construction has established once the positions below `i` are filled
and every address below `M` is dealt with. -/
structure OrderInv (l : List KnxComObject) (n i M : Nat) (tbl : List Nat) : Prop where
  length : tbl.length = (comAddrs l n).card
  count : ((comAddrs l n).filter (fun a => a < M)).card = i
  entry : ∀ p, p < i → tbl.getD p 255 < n ∧ IS_COM l (tbl.getD p 255) = true ∧
    ADDR l (tbl.getD p 255) < M ∧
    ∀ j, j < n → IS_COM l j = true → ADDR l j = ADDR l (tbl.getD p 255) → j ≤ tbl.getD p 255
  ascending : ∀ p q, p < q → q < i → ADDR l (tbl.getD p 255) < ADDR l (tbl.getD q 255)
  cover : ∀ j, j < n → IS_COM l j = true → ADDR l j < M →
    ∃ p, p < i ∧ ADDR l (tbl.getD p 255) = ADDR l j

/-- The ordered index table of the list `l` of size `n`: one entry per address of an
object with the communication flag, each the highest index holding that address, the
addresses strictly ascending. -/
structure TableOK (l : List KnxComObject) (n : Nat) (tbl : List Nat) : Prop where
  length : tbl.length = (comAddrs l n).card
  entry : ∀ p, p < tbl.length → tbl.getD p 255 < n ∧ IS_COM l (tbl.getD p 255) = true ∧
    ∀ j, j < n → IS_COM l j = true → ADDR l j = ADDR l (tbl.getD p 255) → j ≤ tbl.getD p 255
  ascending : ∀ p q, p < q → q < tbl.length →
    ADDR l (tbl.getD p 255) < ADDR l (tbl.getD q 255)
  cover : ∀ j, j < n → IS_COM l j = true →
    ∃ p, p < tbl.length ∧ ADDR l (tbl.getD p 255) = ADDR l j

/-- The coupler holds the list `l` and its ordered index table `tbl`. -/
structure Attached (s : Coupler) (l : List KnxComObject) (tbl : List Nat) : Prop where
  list : s.comObjectsList = some l
  table : s.orderedIndexTable = some tbl
  nb : s.assignedComObjectsNb = tbl.length
  size : l.length ≤ 255
  ok : TableOK l l.length tbl

/-- The index members agree: a coupler without a table has no count and no list. The
constructor establishes this and every operation keeps it. -/
def Coupler.Consistent (s : Coupler) : Prop :=
  s.orderedIndexTable = none → s.assignedComObjectsNb = 0 ∧ s.comObjectsList = none

instance (s : Coupler) : Decidable s.Consistent := by
  unfold Coupler.Consistent; infer_instance

/-- The coupler with its list detached. -/
def Coupler.detach (s : Coupler) : Coupler :=
  { s with orderedIndexTable := none, comObjectsList := none, assignedComObjectsNb := 0 }

/-- The coupler holding the list `l` of size `n` and its index. -/
def Coupler.attach (s : Coupler) (l : List KnxComObject) (n : Nat) : Coupler :=
  { s with
    assignedComObjectsNb := (comAddrs l n).card
    comObjectsList := some l
    orderedIndexTable := some (buildOrderedIndexTable l n (comAddrs l n).card) }

/-- The coupler right after `Reset()` on a fresh instance: the state in which a list
is attached. -/
def resetCoupler : Coupler := (Reset (StKnxCoupler none 0 0)).2

/-- A list of twenty objects, seventeen of them communication-enabled with distinct
addresses: its table is large enough for one halving step. -/
def twentyObjects : List KnxComObject :=
  (List.range 20).map (fun i => ⟨(i * 7 + 3) % 23, decide (i % 7 ≠ 2)⟩)

/-- The list of the example of spec §8: addresses 10, 5, 5 with the communication flag,
address 20 without. -/
def specExample : List KnxComObject := [⟨10, true⟩, ⟨5, true⟩, ⟨5, true⟩, ⟨20, false⟩]

/-- Reads beyond the blocks that deliver zeros. -/
def zeroBeyond : Beyond := ⟨fun _ => 0, fun _ => 0⟩

/-- The naive linear scan of spec §8 over the ordered table: the first entry whose
object has the address `addr`, if there is one. -/
def naiveLookup (s : Coupler) (addr : Nat) : Option Nat :=
  match s.orderedIndexTable, s.comObjectsList with
  | some tbl, some l => tbl.find? (fun e => (objAt l e).GetAddr == addr)
  | _, _ => none

/-- Two objects without the communication flag before one with it. -/
def sparseObjects : List KnxComObject := [⟨1, false⟩, ⟨2, false⟩, ⟨7, true⟩]

/-- Two groups of duplicates: address 9 twice, then address 5 three times. -/
def twoGroups : List KnxComObject :=
  [⟨9, true⟩, ⟨9, true⟩, ⟨5, true⟩, ⟨5, true⟩, ⟨5, true⟩]

/-- The telegram `SendTelegram` hands to the transmit function: the source address is
forced to the physical address of the coupler. -/
def handedOver (cks : KnxTelegram → Nat) (s : Coupler) (t : KnxTelegram) : KnxTelegram :=
  if t.GetSourceAddress ≠ s.physicalAddr then
    (t.SetSourceAddress s.physicalAddr).UpdateChecksum cks
  else t

/-- A telegram is being received: the four reception states. -/
def RxState.receiving (st : RxState) : Prop :=
  st = RX_EIB_TELEGRAM_RECEPTION_STARTED ∨ st = RX_EIB_TELEGRAM_RECEPTION_LENGTH_INVALID ∨
    st = RX_EIB_TELEGRAM_RECEPTION_ADDRESSED ∨ st = RX_EIB_TELEGRAM_RECEPTION_NOT_ADDRESSED

instance (st : RxState) : Decidable st.receiving := by
  unfold RxState.receiving; infer_instance

/-- The callback invocations made on the way from the coupler `s` to the coupler `s2`. -/
def newCalls (s s2 : Coupler) : List Call := s2.calls.drop s.calls.length

/-- The assignment `_rx.state = RX_IDLE_WAITING_FOR_CTRL_FIELD`. -/
def toIdle (s : Coupler) : Coupler := { s with rx.state := RX_IDLE_WAITING_FOR_CTRL_FIELD }

/-- A coupler without transmit callback and with the event callback set, in the
reception state `st`, with the staged telegram `t`, the staged index 3 and the last byte
received at the counter value `last`. -/
def polledCoupler (st : RxState) (t : KnxTelegram) (last : Nat) : Coupler :=
  { (Init (StKnxCoupler none 0x1101 0)).2 with
    evtCallbackFct := true
    rx.state := st
    telegram := t
    addressedComObjectIndex := 3
    lastByteRxTimeMicrosec := last }

/-- A checksum function for the examples: the sum of the two addresses, as a byte. -/
def sumChecksum (t : KnxTelegram) : Nat := (t.sourceAddress + t.targetAddress) % 256

/-- The coupler after `Reset()`, with the list of spec §8 attached and the event
callback set. -/
def listeningCoupler : Coupler :=
  { (AttachComObjectsList resetCoupler (some specExample) 4).2 with evtCallbackFct := true }

/-- The coupler `listeningCoupler` after the delivery of the telegram with target
address 10 and a valid checksum. -/
def deliveredCoupler : Coupler :=
  { listeningCoupler with
    addressedComObjectIndex := 0
    calls := [Call.event BUSCOUPLER_EVENT_RECEIVED_EIB_TELEGRAM]
    rx := ⟨RX_IDLE_WAITING_FOR_CTRL_FIELD, ⟨7, 10, [1], 17⟩, 0⟩ }

/-- A coupler with a transmit callback and the event callback set, in the reception
state `st`, with the staged telegram `t`, the staged index 3 and the last byte received
at the counter value 0. -/
def pushCoupler (st : RxState) (t : KnxTelegram) : Coupler :=
  { (Init (StKnxCoupler (some (fun _ => 0)) 0x1101 0)).2 with
    evtCallbackFct := true
    rx.state := st
    telegram := t
    addressedComObjectIndex := 3
    lastByteRxTimeMicrosec := 0 }

/-- A coupler in WaitingAck with the acknowledgment callback set. -/
def waitingCoupler : Coupler :=
  { (Init (StKnxCoupler (some (fun _ => 0)) 0x1101 0)).2 with
    tx.state := TX_WAITING_ACK
    tx.ackFctPtr := true }

/-- The couplers that a freshly constructed coupler can become through calls of `Reset`,
`Init`, `AttachComObjectsList`, `SendTelegram`, `SetReceivedTelegram`, `RXTask` and
`TXTask` that return. The byte transport and the registration of the event callback are
not in the source; they are let in as any change that leaves the member `_tx` alone. -/
inductive Reachable : Coupler → Prop
  | fresh (cb : Option (KnxTelegram → Nat)) (physicalAddr mode : Nat) :
      Reachable (StKnxCoupler cb physicalAddr mode)
  | reset (s : Coupler) : Reachable s → Reachable (Reset s).2
  | init (s : Coupler) : Reachable s → Reachable (Init s).2
  | attach (s : Coupler) (ol : Option (List KnxComObject)) (n : Nat) :
      Reachable s → Reachable (AttachComObjectsList s ol n).2
  | send (s : Coupler) (cks : KnxTelegram → Nat) (t : KnxTelegram)
      (r : Nat × Coupler × KnxTelegram) :
      Reachable s → SendTelegram cks s t = some r → Reachable r.2.1
  | received (s : Coupler) (cks : KnxTelegram → Nat) (m : Beyond) (t : KnxTelegram)
      (s2 : Coupler) :
      Reachable s → SetReceivedTelegram cks m s t = some s2 → Reachable s2
  | rxTask (s : Coupler) (cks : KnxTelegram → Nat) (micros : Nat) (s2 : Coupler) :
      Reachable s → RXTask cks micros s = some s2 → Reachable s2
  | txTask (s : Coupler) : Reachable s → Reachable (TXTask s)
  | outside (s s2 : Coupler) : Reachable s → s2.tx = s.tx → Reachable s2

/-- A telegram with the source address 7. -/
def foreignTelegram : KnxTelegram := ⟨7, 9, [1, 2], 3⟩

/-- A list of one object, with the communication flag. -/
def singleObject : List KnxComObject := [⟨5, true⟩]

/-! ## The assigned count -/

theorem countLoop_eq (l : List KnxComObject) (is : List Nat) (nb : Nat) (hnb : nb < 256) :
    countLoop l is nb = (nb + is.countP (IS_COM l)) % 256 := by
  induction is generalizing nb with
  | nil => simp [countLoop]; omega
  | cons i is ih =>
    simp only [countLoop, List.foldl_cons, List.countP_cons] at ih ⊢
    cases h : IS_COM l i
    · rw [if_neg (by simp), if_neg (by simp), ih _ hnb]; rfl
    · rw [if_pos rfl, if_pos rfl, ih _ (Nat.mod_lt _ (by norm_num))]
      omega

theorem deductInner_eq (l : List KnxComObject) (i : Nat) (js : List Nat) (nb : Nat)
    (hs : js.Pairwise (· < ·)) (hnb : nb < 256) :
    deductInner l i js nb =
      if ∃ j ∈ js, isDup l i j = true ∧ j < i then nb
      else (nb + 255 * js.countP (isDup l i)) % 256 := by
  induction js generalizing nb with
  | nil => simp [deductInner]; omega
  | cons j js ih =>
    rw [List.pairwise_cons] at hs
    obtain ⟨hj, hs⟩ := hs
    rw [deductInner, List.countP_cons]
    by_cases hd : i ≠ j ∧ ADDR l j = ADDR l i ∧ IS_COM l j = true
    · have hd' : isDup l i j = true := by simpa [isDup] using hd
      rw [if_pos hd]
      by_cases hlt : j < i
      · rw [if_pos hlt, if_pos ⟨j, List.mem_cons_self _ _, hd', hlt⟩]
      · rw [if_neg hlt, ih _ hs (Nat.mod_lt _ (by norm_num))]
        have hno : ¬ ∃ k ∈ js, isDup l i k = true ∧ k < i := by
          rintro ⟨k, hk, -, hki⟩
          have := hj k hk
          omega
        have hno' : ¬ ∃ k ∈ j :: js, isDup l i k = true ∧ k < i := by
          rintro ⟨k, hk, hkd, hki⟩
          rcases List.mem_cons.1 hk with rfl | hk
          · exact hlt hki
          · exact hno ⟨k, hk, hkd, hki⟩
        rw [if_neg hno, if_neg hno', hd']
        simp only [if_true]
        omega
    · have hd' : ¬ isDup l i j = true := by simpa [isDup] using hd
      rw [if_neg hd, ih _ hs hnb]
      have hiff : (∃ k ∈ j :: js, isDup l i k = true ∧ k < i) ↔
          ∃ k ∈ js, isDup l i k = true ∧ k < i := by
        constructor
        · rintro ⟨k, hk, hkd, hki⟩
          rcases List.mem_cons.1 hk with rfl | hk
          · exact absurd hkd hd'
          · exact ⟨k, hk, hkd, hki⟩
        · rintro ⟨k, hk, h⟩
          exact ⟨k, List.mem_cons_of_mem _ hk, h⟩
      simp only [hiff, hd', if_false]
      simp

theorem deductLoop_eq (l : List KnxComObject) (listSize : Nat) (is : List Nat) (nb : Nat)
    (hnb : nb < 256) :
    deductLoop l listSize is nb = (nb + 255 * (is.map (deductions l listSize)).sum) % 256 := by
  induction is generalizing nb with
  | nil => simp [deductLoop]; omega
  | cons i is ih =>
    simp only [deductLoop, List.foldl_cons, List.map_cons, List.sum_cons] at ih ⊢
    by_cases hc : IS_COM l i = true
    · rw [if_neg (not_not.2 hc), deductInner_eq l i _ nb (List.pairwise_lt_range _) hnb]
      by_cases he : ∃ j ∈ List.range listSize, isDup l i j = true ∧ j < i
      · rw [if_pos he, ih _ hnb]
        simp only [deductions, hc, he, if_true]
        omega
      · rw [if_neg he, ih _ (Nat.mod_lt _ (by norm_num))]
        simp only [deductions, hc, he, if_true, if_false]
        omega
    · rw [if_pos hc, ih _ hnb]
      simp [deductions, hc]

theorem exists_firstCom (l : List KnxComObject) (j : Nat) (hj : IS_COM l j = true) :
    ∃ i, i ≤ j ∧ firstCom l i ∧ ADDR l i = ADDR l j := by
  induction j using Nat.strong_induction_on with
  | _ j ih =>
    by_cases hf : firstCom l j
    · exact ⟨j, le_refl _, hf, rfl⟩
    · have : ∃ k, k < j ∧ IS_COM l k = true ∧ ADDR l k = ADDR l j := by
        by_contra hne
        apply hf
        refine ⟨hj, fun k hk hkc => hne ⟨k, hk, hkc⟩⟩
      obtain ⟨k, hk, hkc, hka⟩ := this
      obtain ⟨i, hik, hif, hia⟩ := ih k hk hkc
      exact ⟨i, by omega, hif, hia.trans hka⟩

theorem firstCom_unique (l : List KnxComObject) (i j : Nat) (hi : firstCom l i)
    (hj : firstCom l j) (h : ADDR l i = ADDR l j) : i = j := by
  rcases Nat.lt_trichotomy i j with hlt | heq | hgt
  · exact absurd ⟨hi.1, h⟩ (hj.2 i hlt)
  · exact heq
  · exact absurd ⟨hj.1, h.symm⟩ (hi.2 j hgt)

theorem deductions_eq (l : List KnxComObject) (n i : Nat) (hi : i < n) :
    deductions l n i =
      ∑ j in Finset.range n, if firstCom l i ∧ isDup l i j = true then 1 else 0 := by
  unfold deductions
  by_cases hc : IS_COM l i = true
  · rw [if_pos hc]
    by_cases he : ∃ j ∈ List.range n, isDup l i j = true ∧ j < i
    · rw [if_pos he]
      symm
      apply Finset.sum_eq_zero
      intro j _
      rw [if_neg]
      rintro ⟨hf, -⟩
      obtain ⟨k, -, hkd, hki⟩ := he
      simp only [isDup, decide_eq_true_eq] at hkd
      exact hf.2 k hki ⟨hkd.2.2, hkd.2.1⟩
    · rw [if_neg he]
      have hf : firstCom l i := by
        refine ⟨hc, fun k hk hkc => he ⟨k, List.mem_range.2 (by omega), ?_, hk⟩⟩
        simp only [isDup, decide_eq_true_eq]
        exact ⟨by omega, hkc.2, hkc.1⟩
      simp only [hf, true_and]
      rw [← Finset.card_filter]
      simp [Finset.card, Finset.filter, Finset.range, Multiset.range,
        List.countP_eq_length_filter]
  · rw [if_neg hc]
    symm
    apply Finset.sum_eq_zero
    intro j _
    rw [if_neg]
    rintro ⟨hf, -⟩
    exact hc hf.1

theorem sum_firstCom_isDup (l : List KnxComObject) (n j : Nat) (hj : j < n) :
    (∑ i in Finset.range n, if firstCom l i ∧ isDup l i j = true then 1 else 0) =
      if IS_COM l j = true ∧ ¬ firstCom l j then 1 else 0 := by
  by_cases h : IS_COM l j = true ∧ ¬ firstCom l j
  · rw [if_pos h]
    obtain ⟨i0, hle, hf0, ha0⟩ := exists_firstCom l j h.1
    have hne : i0 ≠ j := by
      rintro rfl
      exact h.2 hf0
    rw [Finset.sum_eq_single i0]
    · rw [if_pos]
      refine ⟨hf0, ?_⟩
      simp only [isDup, decide_eq_true_eq]
      exact ⟨hne, ha0.symm, h.1⟩
    · intro i _ hii
      rw [if_neg]
      rintro ⟨hf, hd⟩
      simp only [isDup, decide_eq_true_eq] at hd
      exact hii (firstCom_unique l i i0 hf hf0 (hd.2.1.symm.trans ha0.symm))
    · intro hni
      exact absurd (Finset.mem_range.2 (by omega)) hni
  · rw [if_neg h]
    apply Finset.sum_eq_zero
    intro i _
    rw [if_neg]
    rintro ⟨hf, hd⟩
    simp only [isDup, decide_eq_true_eq] at hd
    have hfj : firstCom l j := by
      by_contra hnf
      exact h ⟨hd.2.2, hnf⟩
    exact hd.1 (firstCom_unique l i j hf hfj hd.2.1.symm)

theorem sum_deductions (l : List KnxComObject) (n : Nat) :
    (∑ i in Finset.range n, deductions l n i) +
        ((Finset.range n).filter (fun i => firstCom l i)).card =
      ((Finset.range n).filter (fun i => IS_COM l i = true)).card := by
  have h1 : (∑ i in Finset.range n, deductions l n i) =
      ((Finset.range n).filter (fun j => IS_COM l j = true ∧ ¬ firstCom l j)).card := by
    rw [Finset.card_filter]
    rw [Finset.sum_congr rfl (fun i hi => deductions_eq l n i (Finset.mem_range.1 hi))]
    rw [Finset.sum_comm]
    exact Finset.sum_congr rfl (fun j hj => sum_firstCom_isDup l n j (Finset.mem_range.1 hj))
  have h2 : (Finset.range n).filter (fun i => firstCom l i) =
      ((Finset.range n).filter (fun j => IS_COM l j = true)).filter (fun j => firstCom l j) := by
    ext i
    simp only [Finset.mem_filter, Finset.mem_range]
    constructor
    · rintro ⟨hi, hf⟩
      exact ⟨⟨hi, hf.1⟩, hf⟩
    · rintro ⟨⟨hi, -⟩, hf⟩
      exact ⟨hi, hf⟩
  have h3 : (Finset.range n).filter (fun j => IS_COM l j = true ∧ ¬ firstCom l j) =
      ((Finset.range n).filter (fun j => IS_COM l j = true)).filter
        (fun j => ¬ firstCom l j) := by
    rw [Finset.filter_filter]
  rw [h1, h2, h3, add_comm]
  exact Finset.filter_card_add_filter_neg_card_eq_card _

theorem card_firstCom (l : List KnxComObject) (n : Nat) :
    ((Finset.range n).filter (fun i => firstCom l i)).card = (comAddrs l n).card := by
  have himg : comAddrs l n = ((Finset.range n).filter (fun i => firstCom l i)).image (ADDR l) := by
    ext a
    simp only [comAddrs, Finset.mem_image, Finset.mem_filter, Finset.mem_range]
    constructor
    · rintro ⟨j, ⟨hj, hc⟩, rfl⟩
      obtain ⟨i, hle, hf, ha⟩ := exists_firstCom l j hc
      exact ⟨i, ⟨by omega, hf⟩, ha⟩
    · rintro ⟨i, ⟨hi, hf⟩, rfl⟩
      exact ⟨i, ⟨hi, hf.1⟩, rfl⟩
  rw [himg, Finset.card_image_of_injOn]
  intro i hi j hj h
  simp only [Finset.coe_filter, Finset.mem_range, Set.mem_setOf_eq] at hi hj
  exact firstCom_unique l i j hi.2 hj.2 h

theorem countP_range_le (p : Nat → Bool) (n : Nat) : (List.range n).countP p ≤ n := by
  simpa using List.countP_le_length p (l := List.range n)

theorem countLoop_range (l : List KnxComObject) (n : Nat) (hn : n ≤ 255) :
    countLoop l (List.range n) 0 =
      ((Finset.range n).filter (fun i => IS_COM l i = true)).card := by
  rw [countLoop_eq l _ 0 (by norm_num)]
  have h := countP_range_le (IS_COM l) n
  have e : (List.range n).countP (IS_COM l) =
      ((Finset.range n).filter (fun i => IS_COM l i = true)).card := by
    simp [Finset.card, Finset.filter, Finset.range, Multiset.range,
      List.countP_eq_length_filter]
  rw [← e]
  omega

theorem deductLoop_range (l : List KnxComObject) (n : Nat) (hn : n ≤ 255) :
    deductLoop l n (List.range n) (countLoop l (List.range n) 0) = (comAddrs l n).card := by
  have hc := countLoop_range l n hn
  have hle : ((Finset.range n).filter (fun i => IS_COM l i = true)).card ≤ n := by
    simpa using Finset.card_filter_le (Finset.range n) (fun i => IS_COM l i = true)
  rw [deductLoop_eq l n _ _ (by omega)]
  have hs : ((List.range n).map (deductions l n)).sum = ∑ i in Finset.range n, deductions l n i :=
    rfl
  have h := sum_deductions l n
  rw [card_firstCom] at h
  rw [hs, hc]
  omega

/-! ## The table construction -/

theorem getD_set_eq (tbl : List Nat) (i e d : Nat) (h : i < tbl.length) :
    (tbl.set i e).getD i d = e := by
  simp [List.getD_eq_getElem?_getD, List.getElem?_set_self, h]

theorem getD_set_ne (tbl : List Nat) (i p e d : Nat) (h : i ≠ p) :
    (tbl.set i e).getD p d = tbl.getD p d := by
  simp [List.getD_eq_getElem?_getD, List.getElem?_set_ne h]

theorem selectLoop_spec (l : List KnxComObject) (i m : Nat) (js : List Nat) (f : Nat)
    (tbl : List Nat) (hs : js.Pairwise (· < ·)) :
    (selectLoop l i m js (f, tbl) = (f, tbl) ∧
        ∀ j ∈ js, ¬ (IS_COM l j = true ∧ m ≤ ADDR l j ∧ ADDR l j ≤ f)) ∨
      ∃ e ∈ js, IS_COM l e = true ∧ m ≤ ADDR l e ∧ ADDR l e ≤ f ∧
        selectLoop l i m js (f, tbl) = (ADDR l e, tbl.set i e) ∧
        (∀ j ∈ js, IS_COM l j = true → m ≤ ADDR l j → ADDR l e ≤ ADDR l j) ∧
        (∀ j ∈ js, IS_COM l j = true → ADDR l j = ADDR l e → j ≤ e) := by
  induction js generalizing f tbl with
  | nil => left; simp [selectLoop]
  | cons j js ih =>
    rw [List.pairwise_cons] at hs
    obtain ⟨hj, hs⟩ := hs
    have hstep : selectLoop l i m (j :: js) (f, tbl) =
        selectLoop l i m js
          (if IS_COM l j = true ∧ ADDR l j ≥ m ∧ ADDR l j ≤ f then (ADDR l j, tbl.set i j)
            else (f, tbl)) := by
      simp [selectLoop]
    rw [hstep]
    by_cases hq : IS_COM l j = true ∧ ADDR l j ≥ m ∧ ADDR l j ≤ f
    · rw [if_pos hq]
      right
      rcases ih (ADDR l j) (tbl.set i j) hs with ⟨heq, hnone⟩ | ⟨e, he, hec, hem, hef, heq, hmin, hhi⟩
      · refine ⟨j, List.mem_cons_self _ _, hq.1, hq.2.1, hq.2.2, heq, ?_, ?_⟩
        · intro k hk hkc hkm
          rcases List.mem_cons.1 hk with rfl | hk
          · exact le_refl _
          · by_contra hlt
            exact hnone k hk ⟨hkc, hkm, by omega⟩
        · intro k hk hkc hka
          rcases List.mem_cons.1 hk with rfl | hk
          · exact le_refl _
          · exact absurd ⟨hkc, by omega, by omega⟩ (hnone k hk)
      · refine ⟨e, List.mem_cons_of_mem _ he, hec, hem, by omega, ?_, ?_, ?_⟩
        · rw [heq, List.set_set]
        · intro k hk hkc hkm
          rcases List.mem_cons.1 hk with rfl | hk
          · exact hef
          · exact hmin k hk hkc hkm
        · intro k hk hkc hka
          rcases List.mem_cons.1 hk with rfl | hk
          · exact le_of_lt (hj e he)
          · exact hhi k hk hkc hka
    · rw [if_neg hq]
      rcases ih f tbl hs with ⟨heq, hnone⟩ | ⟨e, he, hec, hem, hef, heq, hmin, hhi⟩
      · left
        refine ⟨heq, ?_⟩
        intro k hk
        rcases List.mem_cons.1 hk with rfl | hk
        · exact hq
        · exact hnone k hk
      · right
        refine ⟨e, List.mem_cons_of_mem _ he, hec, hem, hef, heq, ?_, ?_⟩
        · intro k hk hkc hkm
          rcases List.mem_cons.1 hk with rfl | hk
          · by_contra hlt
            exact hq ⟨hkc, hkm, by omega⟩
          · exact hmin k hk hkc hkm
        · intro k hk hkc hka
          rcases List.mem_cons.1 hk with rfl | hk
          · exact absurd ⟨hkc, by omega, by omega⟩ hq
          · exact hhi k hk hkc hka

theorem ADDR_lt (l : List KnxComObject) (j : Nat) : ADDR l j < 65536 := by
  unfold ADDR KnxComObject.GetAddr
  exact Nat.mod_lt _ (by norm_num)

theorem mem_comAddrs (l : List KnxComObject) (n a : Nat) :
    a ∈ comAddrs l n ↔ ∃ j, j < n ∧ IS_COM l j = true ∧ ADDR l j = a := by
  simp only [comAddrs, Finset.mem_image, Finset.mem_filter, Finset.mem_range]
  constructor
  · rintro ⟨j, ⟨hj, hc⟩, rfl⟩
    exact ⟨j, hj, hc, rfl⟩
  · rintro ⟨j, hj, hc, rfl⟩
    exact ⟨j, ⟨hj, hc⟩, rfl⟩

theorem OrderInv.done (l : List KnxComObject) (n M : Nat) (tbl : List Nat)
    (h : OrderInv l n (comAddrs l n).card M tbl) : TableOK l n tbl := by
  have hall : ∀ a ∈ comAddrs l n, a < M := by
    have hsub : (comAddrs l n).filter (fun a => a < M) = comAddrs l n :=
      Finset.eq_of_subset_of_card_le (Finset.filter_subset _ _) (le_of_eq h.count.symm)
    intro a ha
    rw [← hsub] at ha
    exact (Finset.mem_filter.1 ha).2
  refine ⟨h.length, ?_, ?_, ?_⟩
  · intro p hp
    rw [h.length] at hp
    obtain ⟨h1, h2, -, h4⟩ := h.entry p hp
    exact ⟨h1, h2, h4⟩
  · intro p q hpq hq
    rw [h.length] at hq
    exact h.ascending p q hpq hq
  · intro j hj hc
    obtain ⟨p, hp, hpa⟩ := h.cover j hj hc (hall _ ((mem_comAddrs l n _).2 ⟨j, hj, hc, rfl⟩))
    exact ⟨p, by rw [h.length]; exact hp, hpa⟩

theorem OrderInv.step (l : List KnxComObject) (n i M e : Nat) (tbl : List Nat)
    (h : OrderInv l n i M tbl) (hi : i < (comAddrs l n).card)
    (hen : e < n) (hec : IS_COM l e = true) (hem : M ≤ ADDR l e)
    (hmin : ∀ j, j < n → IS_COM l j = true → M ≤ ADDR l j → ADDR l e ≤ ADDR l j)
    (hhi : ∀ j, j < n → IS_COM l j = true → ADDR l j = ADDR l e → j ≤ e) :
    OrderInv l n (i + 1) (ADDR l e + 1) (tbl.set i e) := by
  have hlen : i < tbl.length := by rw [h.length]; exact hi
  refine ⟨by rw [List.length_set]; exact h.length, ?_, ?_, ?_, ?_⟩
  · have hset : (comAddrs l n).filter (fun a => a < ADDR l e + 1) =
        insert (ADDR l e) ((comAddrs l n).filter (fun a => a < M)) := by
      ext a
      simp only [Finset.mem_filter, Finset.mem_insert]
      constructor
      · rintro ⟨ha, hlt⟩
        by_cases haM : a < M
        · exact Or.inr ⟨ha, haM⟩
        · left
          obtain ⟨j, hj, hc, rfl⟩ := (mem_comAddrs l n a).1 ha
          have := hmin j hj hc (by omega)
          omega
      · rintro (rfl | ⟨ha, hlt⟩)
        · exact ⟨(mem_comAddrs l n _).2 ⟨e, hen, hec, rfl⟩, by omega⟩
        · exact ⟨ha, by omega⟩
    rw [hset, Finset.card_insert_of_not_mem, h.count]
    intro hmem
    have := (Finset.mem_filter.1 hmem).2
    omega
  · intro p hp
    by_cases hpi : p = i
    · subst hpi
      rw [getD_set_eq _ _ _ _ hlen]
      exact ⟨hen, hec, by omega, hhi⟩
    · rw [getD_set_ne _ _ _ _ _ (Ne.symm hpi)]
      obtain ⟨h1, h2, h3, h4⟩ := h.entry p (by omega)
      exact ⟨h1, h2, by omega, h4⟩
  · intro p q hpq hq
    rw [getD_set_ne _ _ _ _ _ (by omega : i ≠ p)]
    by_cases hqi : q = i
    · subst hqi
      rw [getD_set_eq _ _ _ _ hlen]
      have := (h.entry p hpq).2.2.1
      omega
    · rw [getD_set_ne _ _ _ _ _ (Ne.symm hqi)]
      exact h.ascending p q hpq (by omega)
  · intro j hj hc hlt
    by_cases hjM : ADDR l j < M
    · obtain ⟨p, hp, hpa⟩ := h.cover j hj hc hjM
      refine ⟨p, by omega, ?_⟩
      rw [getD_set_ne _ _ _ _ _ (by omega : i ≠ p)]
      exact hpa
    · refine ⟨i, by omega, ?_⟩
      rw [getD_set_eq _ _ _ _ hlen]
      have := hmin j hj hc (by omega)
      omega

theorem orderLoop_spec (l : List KnxComObject) (n : Nat) (k i M : Nat) (tbl : List Nat)
    (h : OrderInv l n i M tbl) (hk : i + k = (comAddrs l n).card) :
    TableOK l n (orderLoop l n (List.range' i k) (M % 65536) 0xFFFF tbl) := by
  induction k generalizing i M tbl with
  | zero =>
    simp only [List.range'_zero, orderLoop]
    have hi : i = (comAddrs l n).card := by omega
    subst hi
    exact h.done
  | succ k ih =>
    have hi : i < (comAddrs l n).card := by omega
    -- some address is not below `M`
    have hex : ∃ j, j < n ∧ IS_COM l j = true ∧ M ≤ ADDR l j := by
      by_contra hne
      have hsub : (comAddrs l n).filter (fun a => a < M) = comAddrs l n := by
        apply Finset.filter_true_of_mem
        intro a ha
        obtain ⟨j, hj, hc, rfl⟩ := (mem_comAddrs l n a).1 ha
        by_contra hlt
        exact hne ⟨j, hj, hc, by omega⟩
      have := h.count
      rw [hsub] at this
      omega
    obtain ⟨j0, hj0, hc0, hM0⟩ := hex
    have hj0lt := ADDR_lt l j0
    have hM : M % 65536 = M := Nat.mod_eq_of_lt (by omega)
    rw [List.range'_succ, orderLoop]
    rcases selectLoop_spec l i (M % 65536) (List.range n) 0xFFFF tbl (List.pairwise_lt_range _)
      with ⟨-, hnone⟩ | ⟨e, he, hec, hem, -, heq, hmin, hhi⟩
    · exact absurd ⟨hc0, by omega, by omega⟩ (hnone j0 (List.mem_range.2 hj0))
    · simp only [heq]
      rw [hM] at hem hmin
      exact ih (i + 1) (ADDR l e + 1) _
        (h.step l n i M e tbl hi (List.mem_range.1 he) hec hem
          (fun j hj => hmin j (List.mem_range.2 hj)) (fun j hj => hhi j (List.mem_range.2 hj)))
        (by omega)

theorem buildOrderedIndexTable_ok (l : List KnxComObject) (n : Nat) :
    TableOK l n (buildOrderedIndexTable l n (comAddrs l n).card) := by
  unfold buildOrderedIndexTable
  rw [List.range_eq_range']
  have h0 : OrderInv l n 0 0 (List.replicate (comAddrs l n).card 255) := by
    refine ⟨by simp, by simp, ?_, ?_, ?_⟩
    · intro p hp; omega
    · intro p q _ hq; omega
    · intro j _ _ hlt; omega
  exact orderLoop_spec l n _ 0 0 _ h0 (by omega)

/-! ## The search -/

theorem getD_of_lt (tbl : List Nat) (p d d' : Nat) (h : p < tbl.length) :
    tbl.getD p d = tbl.getD p d' := by
  simp [List.getD_eq_getElem?_getD, List.getElem?_eq_getElem h]

theorem card_comAddrs_le (l : List KnxComObject) (n : Nat) : (comAddrs l n).card ≤ n := by
  calc (comAddrs l n).card
      ≤ ((Finset.range n).filter (fun j => IS_COM l j = true)).card := Finset.card_image_le
    _ ≤ (Finset.range n).card := Finset.card_filter_le _ _
    _ = n := Finset.card_range n

theorem Attached.length_le (s : Coupler) (l : List KnxComObject) (tbl : List Nat)
    (h : Attached s l tbl) : tbl.length ≤ l.length := by
  rw [h.ok.length]
  exact card_comAddrs_le l _

theorem Attached.tableAt_eq (s : Coupler) (l : List KnxComObject) (tbl : List Nat)
    (h : Attached s l tbl) (m : Beyond) (p : Nat) (hp : p < tbl.length) :
    tableAt s m p = tbl.getD p 255 := by
  unfold StKnx.tableAt
  rw [h.table]
  exact getD_of_lt _ _ _ _ hp

theorem Attached.addrAt_eq (s : Coupler) (l : List KnxComObject) (tbl : List Nat)
    (h : Attached s l tbl) (m : Beyond) (k : Nat) (hk : k < l.length) :
    addrAt s m k = ADDR l k := by
  unfold StKnx.addrAt
  rw [h.list]
  simp [hk]

set_option maxRecDepth 100000 in
/-- The fuel of `divisionLoop` is never used up on a byte: the loop is left because
`_assignedComObjectsNb >> i` is zero, after at most four steps. -/
theorem divisionLoop_exit :
    ∀ nb, nb < 256 →
      nb >>> (4 + divisionLoop nb 256 4 0) = 0 ∧ divisionLoop nb 256 4 0 ≤ 4 := by
  decide

/-- The fuel of `scanLoop` is never used up when the search range ends below 255: the
loop is left because its condition fails. -/
theorem scanLoop_exit (s : Coupler) (m : Beyond) (addr stop fuel i : Nat)
    (h1 : i ≤ stop + 1) (h2 : stop < 255) (h3 : stop + 1 - i < fuel) :
    ¬ (tableAt s m (scanLoop s m addr stop fuel i) ≠ 255 ∧
      tableAt s m (scanLoop s m addr stop fuel i) ≤ s.assignedComObjectsNb ∧
      addrAt s m (tableAt s m (scanLoop s m addr stop fuel i)) ≠ addr ∧
      scanLoop s m addr stop fuel i ≤ stop) := by
  induction fuel generalizing i with
  | zero => omega
  | succ fuel ih =>
    rw [scanLoop]
    split
    · rename_i hc
      have e : (i + 1) % 256 = i + 1 := Nat.mod_eq_of_lt (by omega)
      rw [e]
      exact ih (i + 1) (by omega) (by omega)
    · rename_i hc
      exact hc

theorem Attached.reduceLoop_bounds (s : Coupler) (l : List KnxComObject) (tbl : List Nat)
    (h : Attached s l tbl) (m : Beyond) (p : Nat) (dc start stop range : Nat)
    (h1 : start ≤ p) (h2 : p ≤ stop) (h3 : stop < tbl.length)
    (h4 : start + range ≤ stop + 1) :
    (reduceLoop s m (ADDR l (tbl.getD p 255)) dc start stop range).1 ≤ p ∧
      p ≤ (reduceLoop s m (ADDR l (tbl.getD p 255)) dc start stop range).2 ∧
      (reduceLoop s m (ADDR l (tbl.getD p 255)) dc start stop range).2 < tbl.length := by
  have hlen := h.length_le
  have hsz := h.size
  induction dc generalizing start stop range with
  | zero => exact ⟨h1, h2, h3⟩
  | succ dc ih =>
    rw [StKnx.reduceLoop]
    have hr : range >>> 1 = range / 2 := by
      rw [Nat.shiftRight_eq_div_pow]
    simp only [hr]
    have hmid : start + range / 2 ≤ stop := by omega
    have hmidlt : start + range / 2 < tbl.length := by omega
    rw [h.tableAt_eq s l tbl m _ hmidlt]
    obtain ⟨he1, -, -⟩ := h.ok.entry _ hmidlt
    rw [h.addrAt_eq s l tbl m _ he1]
    by_cases hge : ADDR l (tbl.getD p 255) ≥ ADDR l (tbl.getD (start + range / 2) 255)
    · rw [if_pos ⟨by omega, hge⟩]
      have hpm : start + range / 2 ≤ p := by
        by_contra hlt
        have := h.ok.ascending p (start + range / 2) (by omega) hmidlt
        omega
      have e : (start + range / 2) % 256 = start + range / 2 := Nat.mod_eq_of_lt (by omega)
      rw [e]
      exact ih _ _ _ hpm h2 h3 (by omega)
    · rw [if_neg (fun hc => hge hc.2)]
      have hpm : p < start + range / 2 := by
        by_contra hnlt
        rcases Nat.eq_or_lt_of_le (Nat.le_of_not_lt hnlt) with heq | hlt
        · rw [← heq] at hge
          exact hge (le_refl _)
        · have := h.ok.ascending (start + range / 2) p hlt (by omega)
          omega
      have e : (stop + 256 - range / 2) % 256 = stop - range / 2 := by omega
      rw [e]
      exact ih _ _ _ h1 (by omega) (by omega) (by omega)

theorem Attached.scanLoop_stops (s : Coupler) (l : List KnxComObject) (tbl : List Nat)
    (h : Attached s l tbl) (m : Beyond) (p stop : Nat) (fuel i : Nat)
    (h1 : i ≤ p) (h2 : p ≤ stop) (h3 : stop < tbl.length) (hf : p - i < fuel) :
    i ≤ scanLoop s m (ADDR l (tbl.getD p 255)) stop fuel i ∧
      scanLoop s m (ADDR l (tbl.getD p 255)) stop fuel i ≤ p ∧
      (scanLoop s m (ADDR l (tbl.getD p 255)) stop fuel i = p ∨
        tbl.length < tbl.getD (scanLoop s m (ADDR l (tbl.getD p 255)) stop fuel i) 255) := by
  have hlen := h.length_le
  have hsz := h.size
  induction fuel generalizing i with
  | zero => omega
  | succ fuel ih =>
    rw [StKnx.scanLoop]
    have hil : i < tbl.length := by omega
    rw [h.tableAt_eq s l tbl m _ hil]
    obtain ⟨he1, -, -⟩ := h.ok.entry _ hil
    rw [h.addrAt_eq s l tbl m _ he1, h.nb]
    by_cases hc : tbl.getD i 255 ≠ 255 ∧ tbl.getD i 255 ≤ tbl.length ∧
        ADDR l (tbl.getD i 255) ≠ ADDR l (tbl.getD p 255) ∧ i ≤ stop
    · rw [if_pos hc]
      have hip : i ≠ p := by
        rintro rfl
        exact hc.2.2.1 rfl
      have e : (i + 1) % 256 = i + 1 := Nat.mod_eq_of_lt (by omega)
      rw [e]
      obtain ⟨a, b, c⟩ := ih (i + 1) (by omega) (by omega)
      exact ⟨by omega, b, c⟩
    · rw [if_neg hc]
      refine ⟨le_refl _, h1, ?_⟩
      by_cases hgt : tbl.length < tbl.getD i 255
      · exact Or.inr hgt
      · left
        have hae : ADDR l (tbl.getD i 255) = ADDR l (tbl.getD p 255) := by
          by_contra hne
          exact hc ⟨by omega, by omega, hne, by omega⟩
        by_contra hne
        have := h.ok.ascending i p (by omega) (by omega)
        omega

theorem Attached.lookup (s : Coupler) (l : List KnxComObject) (tbl : List Nat)
    (h : Attached s l tbl) (m : Beyond) (p : Nat) (hp : p < tbl.length) :
    ∃ q, q ≤ p ∧ IsAddressAssigned s m (ADDR l (tbl.getD p 255)) = some (tbl.getD q 255) ∧
      (q = p ∨ tbl.length < tbl.getD q 255) := by
  have hlen := h.length_le
  have hsz := h.size
  unfold IsAddressAssigned
  rw [if_neg (by rw [h.nb]; omega)]
  simp only []
  have e : (s.assignedComObjectsNb + 255) % 256 = tbl.length - 1 := by
    rw [h.nb]; omega
  rw [e]
  obtain ⟨r1, r2, r3⟩ := h.reduceLoop_bounds s l tbl m p
    (divisionLoop s.assignedComObjectsNb 256 4 0) 0 (tbl.length - 1) s.assignedComObjectsNb
    (by omega) (by omega) (by omega) (by rw [h.nb]; omega)
  obtain ⟨q1, q2, q3⟩ := h.scanLoop_stops s l tbl m p _ 256 _ r1 r2 r3 (by omega)
  refine ⟨_, q2, ?_, q3⟩
  rw [if_neg (by omega)]
  rw [h.tableAt_eq s l tbl m _ (by omega)]

theorem Attached.reduceLoop_beyond (s : Coupler) (l : List KnxComObject) (tbl : List Nat)
    (h : Attached s l tbl) (m m0 : Beyond) (addr dc start stop range : Nat)
    (h1 : start ≤ stop) (h3 : stop < tbl.length) (h4 : start + range ≤ stop + 1) :
    reduceLoop s m addr dc start stop range = reduceLoop s m0 addr dc start stop range ∧
      (reduceLoop s m addr dc start stop range).1 ≤ (reduceLoop s m addr dc start stop range).2 ∧
      (reduceLoop s m addr dc start stop range).2 < tbl.length := by
  have hlen := h.length_le
  have hsz := h.size
  induction dc generalizing start stop range with
  | zero => exact ⟨rfl, h1, h3⟩
  | succ dc ih =>
    rw [reduceLoop, reduceLoop]
    have hr : range >>> 1 = range / 2 := by
      rw [Nat.shiftRight_eq_div_pow]
    simp only [hr]
    have hmidlt : start + range / 2 < tbl.length := by omega
    rw [h.tableAt_eq s l tbl m _ hmidlt, h.tableAt_eq s l tbl m0 _ hmidlt]
    obtain ⟨he1, -, -⟩ := h.ok.entry _ hmidlt
    rw [h.addrAt_eq s l tbl m _ he1, h.addrAt_eq s l tbl m0 _ he1]
    have e1 : (start + range / 2) % 256 = start + range / 2 := Nat.mod_eq_of_lt (by omega)
    have e2 : (stop + 256 - range / 2) % 256 = stop - range / 2 := by omega
    rw [e1, e2]
    split
    · exact ih _ _ _ (by omega) h3 (by omega)
    · exact ih _ _ _ (by omega) (by omega) (by omega)

theorem Attached.scanLoop_beyond (s : Coupler) (l : List KnxComObject) (tbl : List Nat)
    (h : Attached s l tbl) (m m0 : Beyond) (addr stop fuel i : Nat)
    (h1 : i ≤ stop + 1) (h3 : stop < tbl.length) :
    scanLoop s m addr stop fuel i = scanLoop s m0 addr stop fuel i ∧
      scanLoop s m addr stop fuel i ≤ stop + 1 := by
  have hlen := h.length_le
  have hsz := h.size
  induction fuel generalizing i with
  | zero => exact ⟨rfl, h1⟩
  | succ fuel ih =>
    rw [scanLoop, scanLoop]
    by_cases hi : i ≤ stop
    · have hil : i < tbl.length := by omega
      rw [h.tableAt_eq s l tbl m _ hil, h.tableAt_eq s l tbl m0 _ hil]
      obtain ⟨he1, -, -⟩ := h.ok.entry _ hil
      rw [h.addrAt_eq s l tbl m _ he1, h.addrAt_eq s l tbl m0 _ he1]
      have e : (i + 1) % 256 = i + 1 := Nat.mod_eq_of_lt (by omega)
      rw [e]
      split
      · exact ih _ (by omega)
      · exact ⟨rfl, h1⟩
    · rw [if_neg (fun hc => hi hc.2.2.2), if_neg (fun hc => hi hc.2.2.2)]
      exact ⟨rfl, h1⟩

/-- What lies beyond the table and the list has no influence on the search. -/
theorem Attached.beyond (s : Coupler) (l : List KnxComObject) (tbl : List Nat)
    (h : Attached s l tbl) (m m0 : Beyond) (addr : Nat) :
    IsAddressAssigned s m addr = IsAddressAssigned s m0 addr := by
  have hlen := h.length_le
  have hsz := h.size
  unfold IsAddressAssigned
  by_cases h0 : s.assignedComObjectsNb = 0
  · rw [if_pos h0, if_pos h0]
  · rw [if_neg h0, if_neg h0]
    simp only []
    have hnb := h.nb
    have e : (s.assignedComObjectsNb + 255) % 256 = tbl.length - 1 := by omega
    rw [e]
    obtain ⟨r1, r2, r3⟩ := h.reduceLoop_beyond s l tbl m m0 addr
      (divisionLoop s.assignedComObjectsNb 256 4 0) 0 (tbl.length - 1) s.assignedComObjectsNb
      (by omega) (by omega) (by omega)
    rw [← r1]
    obtain ⟨q1, q2⟩ := h.scanLoop_beyond s l tbl m m0 addr _ 256 _ (Nat.le_succ_of_le r2) r3
    rw [← q1]
    split
    · rfl
    · rw [h.tableAt_eq s l tbl m _ (by omega), h.tableAt_eq s l tbl m0 _ (by omega)]

/-! ## The result of an attach -/

theorem detach_of_consistent (s : Coupler) (h : s.Consistent) :
    (if s.orderedIndexTable.isSome then
        { s with orderedIndexTable := none, comObjectsList := none, assignedComObjectsNb := 0 }
      else s) = s.detach := by
  by_cases ht : s.orderedIndexTable.isSome
  · rw [if_pos ht]; rfl
  · rw [if_neg ht]
    have hn : s.orderedIndexTable = none := by
      cases hh : s.orderedIndexTable with
      | none => rfl
      | some t => rw [hh] at ht; simp at ht
    obtain ⟨h1, h2⟩ := h hn
    cases s
    simp only [Coupler.detach] at *
    simp_all

theorem countLoop_none (l : List KnxComObject) (is : List Nat) (nb : Nat)
    (h : ∀ i ∈ is, IS_COM l i = false) : countLoop l is nb = nb := by
  induction is generalizing nb with
  | nil => rfl
  | cons i is ih =>
    simp only [countLoop, List.foldl_cons] at ih ⊢
    rw [h i (List.mem_cons_self _ _), if_neg (by simp)]
    exact ih nb (fun j hj => h j (List.mem_cons_of_mem _ hj))

theorem card_comAddrs_pos (l : List KnxComObject) (n j : Nat) (hj : j < n)
    (hc : IS_COM l j = true) : 0 < (comAddrs l n).card :=
  Finset.card_pos.2 ⟨_, (mem_comAddrs l n _).2 ⟨j, hj, hc, rfl⟩⟩

theorem card_filter_com_pos (l : List KnxComObject) (n j : Nat) (hj : j < n)
    (hc : IS_COM l j = true) :
    0 < ((Finset.range n).filter (fun i => IS_COM l i = true)).card :=
  Finset.card_pos.2 ⟨j, Finset.mem_filter.2 ⟨Finset.mem_range.2 hj, hc⟩⟩

theorem attach_eq (s : Coupler) (l : List KnxComObject) (n : Nat)
    (hrx : s.rx.state = RX_INIT) (htx : s.tx.state = TX_INIT) (hcons : s.Consistent)
    (hn : n ≤ 255) (j : Nat) (hj : j < n) (hc : IS_COM l j = true) :
    AttachComObjectsList s (some l) n = (KNX_BUSCOUPLER_OK, s.attach l n) := by
  unfold AttachComObjectsList
  rw [if_neg (by simp [hrx, htx]), detach_of_consistent s hcons]
  simp only []
  rw [if_neg (by omega)]
  have h0 : s.detach.assignedComObjectsNb = 0 := rfl
  rw [h0]
  have hpos := card_filter_com_pos l n j hj hc
  rw [if_neg (by rw [countLoop_range l n hn]; omega), deductLoop_range l n hn]
  rfl

theorem attach_eq_nocom (s : Coupler) (l : List KnxComObject) (n : Nat)
    (hrx : s.rx.state = RX_INIT) (htx : s.tx.state = TX_INIT) (hcons : s.Consistent)
    (hc : ∀ j, j < n → IS_COM l j = false) :
    AttachComObjectsList s (some l) n = (KNX_BUSCOUPLER_OK, s.detach) := by
  unfold AttachComObjectsList
  rw [if_neg (by simp [hrx, htx]), detach_of_consistent s hcons]
  simp only []
  by_cases hn : n = 0
  · rw [if_pos hn]
  · rw [if_neg hn]
    have h0 : s.detach.assignedComObjectsNb = 0 := rfl
    rw [h0, countLoop_none l _ 0 (fun i hi => hc i (List.mem_range.1 hi))]
    rfl

theorem attach_eq_null (s : Coupler) (n : Nat)
    (hrx : s.rx.state = RX_INIT) (htx : s.tx.state = TX_INIT) (hcons : s.Consistent) :
    AttachComObjectsList s none n = (KNX_BUSCOUPLER_OK, s.detach) := by
  unfold AttachComObjectsList
  rw [if_neg (by simp [hrx, htx]), detach_of_consistent s hcons]

theorem attach_attached (s : Coupler) (l : List KnxComObject)
    (h255 : l.length ≤ 255) :
    Attached (s.attach l l.length) l (buildOrderedIndexTable l l.length (comAddrs l l.length).card) where
  list := rfl
  table := rfl
  nb := (buildOrderedIndexTable_ok l l.length).length.symm
  size := h255
  ok := buildOrderedIndexTable_ok l l.length

/-! ## The claims on the index -/

theorem objAt_eq_of_getElem? (l : List KnxComObject) (j : Nat) (o : KnxComObject)
    (h : l[j]? = some o) : objAt l j = o := by
  simp [objAt, List.getD_eq_getElem?_getD, h]

theorem objAt_mem (l : List KnxComObject) (j : Nat) (h : j < l.length) : objAt l j ∈ l := by
  have e : l[j]? = some l[j] := List.getElem?_eq_getElem h
  rw [objAt_eq_of_getElem? l j _ e]
  exact List.getElem_mem h

theorem comAddrs_eq (l : List KnxComObject) :
    comAddrs l l.length =
      ((l.filter (fun o => o.com)).map KnxComObject.GetAddr).toFinset := by
  ext a
  rw [mem_comAddrs]
  simp only [List.mem_toFinset, List.mem_map, List.mem_filter]
  constructor
  · rintro ⟨j, hj, hc, rfl⟩
    exact ⟨objAt l j, ⟨objAt_mem l j hj, hc⟩, rfl⟩
  · rintro ⟨o, ⟨ho, hc⟩, rfl⟩
    obtain ⟨j, hj⟩ := List.mem_iff_getElem?.1 ho
    have hlt : j < l.length := by
      by_contra hge
      rw [List.getElem?_eq_none (by omega)] at hj
      exact absurd hj (by simp)
    have e := objAt_eq_of_getElem? l j o hj
    exact ⟨j, hlt, by simp [IS_COM, e, hc], by simp [ADDR, e]⟩

theorem ADDR_inj_of_nodup (l : List KnxComObject)
    (hd : (l.map KnxComObject.GetAddr).Nodup) (i j : Nat) (hi : i < l.length)
    (hj : j < l.length) (h : ADDR l i = ADDR l j) : i = j := by
  have hi' : i < (l.map KnxComObject.GetAddr).length := by simpa using hi
  have hj' : j < (l.map KnxComObject.GetAddr).length := by simpa using hj
  have ei : l[i]? = some l[i] := List.getElem?_eq_getElem hi
  have ej : l[j]? = some l[j] := List.getElem?_eq_getElem hj
  simp only [ADDR, objAt_eq_of_getElem? l i _ ei, objAt_eq_of_getElem? l j _ ej] at h
  have e : (l.map KnxComObject.GetAddr)[i] = (l.map KnxComObject.GetAddr)[j] := by
    simpa using h
  exact hd.getElem_inj_iff.1 e

theorem TableOK.pairwise (l : List KnxComObject) (n : Nat) (tbl : List Nat)
    (h : TableOK l n tbl) : (tbl.map (ADDR l)).Pairwise (· < ·) := by
  rw [List.pairwise_iff_getElem]
  intro p q hp hq hpq
  simp only [List.length_map] at hp hq
  have := h.ascending p q hpq hq
  simpa [List.getD_eq_getElem?_getD, List.getElem?_eq_getElem hp,
    List.getElem?_eq_getElem hq] using this

theorem TableOK.mem (l : List KnxComObject) (n : Nat) (tbl : List Nat)
    (h : TableOK l n tbl) (e : Nat) (he : e ∈ tbl) :
    e < n ∧ IS_COM l e = true := by
  obtain ⟨p, hp⟩ := List.mem_iff_getElem?.1 he
  have hlt : p < tbl.length := by
    by_contra hge
    rw [List.getElem?_eq_none (by omega)] at hp
    exact absurd hp (by simp)
  have hg : tbl.getD p 255 = e := by simp [List.getD_eq_getElem?_getD, hp]
  obtain ⟨h1, h2, -⟩ := h.entry p hlt
  rw [hg] at h1 h2
  exact ⟨h1, h2⟩

theorem resetCoupler_consistent : resetCoupler.Consistent := fun _ => ⟨rfl, rfl⟩

/-- C5: after a successful `AttachComObjectsList` on a list of 1 to 255 objects the
assigned count is the number of distinct addresses among the objects whose communication
flag is set, and it is the size of the table. -/
theorem AttachComObjectsList_count (s : Coupler) (l : List KnxComObject)
    (hrx : s.rx.state = RX_INIT) (htx : s.tx.state = TX_INIT) (hcons : s.Consistent)
    (h255 : l.length ≤ 255) :
    (AttachComObjectsList s (some l) l.length).1 = KNX_BUSCOUPLER_OK ∧
      (AttachComObjectsList s (some l) l.length).2.assignedComObjectsNb =
        ((l.filter (fun o => o.com)).map KnxComObject.GetAddr).toFinset.card ∧
      ∀ tbl, (AttachComObjectsList s (some l) l.length).2.orderedIndexTable = some tbl →
        tbl.length = (AttachComObjectsList s (some l) l.length).2.assignedComObjectsNb := by
  by_cases hex : ∃ j, j < l.length ∧ IS_COM l j = true
  · obtain ⟨j, hj, hc⟩ := hex
    rw [attach_eq s l _ hrx htx hcons h255 j hj hc]
    refine ⟨rfl, ?_, ?_⟩
    · rw [← comAddrs_eq]; rfl
    · intro tbl ht
      have e : buildOrderedIndexTable l l.length (comAddrs l l.length).card = tbl :=
        Option.some.inj ht
      rw [← e]
      exact (buildOrderedIndexTable_ok l l.length).length
  · have hnone : ∀ j, j < l.length → IS_COM l j = false := by
      intro j hj
      cases hc : IS_COM l j
      · rfl
      · exact absurd ⟨j, hj, hc⟩ hex
    rw [attach_eq_nocom s l _ hrx htx hcons hnone]
    refine ⟨rfl, ?_, ?_⟩
    · rw [← comAddrs_eq]
      have : comAddrs l l.length = ∅ := by
        apply Finset.eq_empty_of_forall_not_mem
        intro a ha
        obtain ⟨j, hj, hc, -⟩ := (mem_comAddrs l _ a).1 ha
        rw [hnone j hj] at hc
        exact absurd hc (by simp)
      rw [this]
      rfl
    · intro tbl ht
      exact absurd ht (by simp [Coupler.detach])

theorem AttachComObjectsList_count_witness :
    resetCoupler.rx.state = RX_INIT ∧ resetCoupler.tx.state = TX_INIT ∧
      resetCoupler.Consistent ∧
      (AttachComObjectsList resetCoupler
        (some [⟨10, true⟩, ⟨5, true⟩, ⟨5, true⟩, ⟨5, false⟩, ⟨20, false⟩]) 5).2.assignedComObjectsNb
        = 2 :=
  ⟨rfl, rfl, resetCoupler_consistent,
    (AttachComObjectsList_count resetCoupler
      [⟨10, true⟩, ⟨5, true⟩, ⟨5, true⟩, ⟨5, false⟩, ⟨20, false⟩] rfl rfl
      resetCoupler_consistent (by decide)).2.1.trans (by decide)⟩

/-- C6: after a successful `AttachComObjectsList` of a list with at least one
communication-enabled object, the ordered table is not empty, has the size of the
assigned count, every entry is the index (below the list size) of a communication-enabled
object and not the sentinel 255, and the referenced addresses are strictly increasing
along the table. -/
theorem AttachComObjectsList_table_invariant (s : Coupler) (l : List KnxComObject)
    (hrx : s.rx.state = RX_INIT) (htx : s.tx.state = TX_INIT) (hcons : s.Consistent)
    (h255 : l.length ≤ 255) (hex : ∃ o ∈ l, o.com = true) :
    (AttachComObjectsList s (some l) l.length).1 = KNX_BUSCOUPLER_OK ∧
      ∃ tbl, (AttachComObjectsList s (some l) l.length).2.orderedIndexTable = some tbl ∧
        tbl ≠ [] ∧
        tbl.length = (AttachComObjectsList s (some l) l.length).2.assignedComObjectsNb ∧
        (∀ e ∈ tbl, e < l.length ∧ e ≠ 255 ∧ (objAt l e).com = true) ∧
        (tbl.map (fun e => (objAt l e).GetAddr)).Pairwise (· < ·) := by
  obtain ⟨o, ho, hoc⟩ := hex
  obtain ⟨j, hj⟩ := List.mem_iff_getElem?.1 ho
  have hlt : j < l.length := by
    by_contra hge
    rw [List.getElem?_eq_none (by omega)] at hj
    exact absurd hj (by simp)
  have hc : IS_COM l j = true := by
    simp [IS_COM, objAt_eq_of_getElem? l j o hj, hoc]
  rw [attach_eq s l _ hrx htx hcons h255 j hlt hc]
  have hok := buildOrderedIndexTable_ok l l.length
  refine ⟨rfl, _, rfl, ?_, hok.length, ?_, hok.pairwise⟩
  · intro hnil
    have h0 := hok.length
    rw [hnil] at h0
    have := card_comAddrs_pos l l.length j hlt hc
    simp at h0
    omega
  · intro e he
    obtain ⟨h1, h2⟩ := hok.mem l _ _ e he
    exact ⟨h1, by omega, h2⟩

theorem AttachComObjectsList_table_invariant_witness :
    resetCoupler.rx.state = RX_INIT ∧ resetCoupler.tx.state = TX_INIT ∧
      resetCoupler.Consistent ∧
      (∃ o ∈ [(⟨0xFFFF, true⟩ : KnxComObject), ⟨0, true⟩, ⟨0xFFFF, true⟩, ⟨7, false⟩],
        o.com = true) ∧
      ∃ tbl, (AttachComObjectsList resetCoupler
          (some [⟨0xFFFF, true⟩, ⟨0, true⟩, ⟨0xFFFF, true⟩, ⟨7, false⟩]) 4).2.orderedIndexTable
          = some tbl ∧ tbl ≠ [] ∧
        ∀ e ∈ tbl, e < 4 ∧ e ≠ 255 ∧
          (objAt [⟨0xFFFF, true⟩, ⟨0, true⟩, ⟨0xFFFF, true⟩, ⟨7, false⟩] e).com = true :=
  ⟨rfl, rfl, resetCoupler_consistent, ⟨⟨0, true⟩, by decide, rfl⟩,
    (AttachComObjectsList_table_invariant resetCoupler
      [⟨0xFFFF, true⟩, ⟨0, true⟩, ⟨0xFFFF, true⟩, ⟨7, false⟩] rfl rfl
      resetCoupler_consistent (by decide) ⟨⟨0, true⟩, by decide, rfl⟩).2.imp
      (fun _ h => ⟨h.1, h.2.1, h.2.2.2.1⟩)⟩

/-- C4: when several communication-enabled objects of the attached list have the same
address, the ordered table has one entry for that address, and it is the highest index
among the communication-enabled objects holding it (NB2 of the source). -/
theorem AttachComObjectsList_highest_index (s : Coupler) (l : List KnxComObject)
    (hrx : s.rx.state = RX_INIT) (htx : s.tx.state = TX_INIT) (hcons : s.Consistent)
    (h255 : l.length ≤ 255) (j : Nat) (hj : j < l.length) (hc : (objAt l j).com = true) :
    ∃ tbl p, (AttachComObjectsList s (some l) l.length).2.orderedIndexTable = some tbl ∧
      p < tbl.length ∧
      (objAt l (tbl.getD p 255)).GetAddr = (objAt l j).GetAddr ∧
      (objAt l (tbl.getD p 255)).com = true ∧
      j ≤ tbl.getD p 255 ∧ tbl.getD p 255 < l.length ∧
      (∀ k, k < l.length → (objAt l k).com = true →
        (objAt l k).GetAddr = (objAt l j).GetAddr → k ≤ tbl.getD p 255) ∧
      ∀ q, q < tbl.length → (objAt l (tbl.getD q 255)).GetAddr = (objAt l j).GetAddr →
        q = p := by
  rw [attach_eq s l _ hrx htx hcons h255 j hj hc]
  have hok := buildOrderedIndexTable_ok l l.length
  obtain ⟨p, hp, hpa⟩ := hok.cover j hj hc
  obtain ⟨h1, h2, h3⟩ := hok.entry p hp
  refine ⟨_, p, rfl, hp, hpa, h2, h3 j hj hc hpa.symm, h1, ?_, ?_⟩
  · intro k hk hkc hka
    exact h3 k hk hkc (hka.trans hpa.symm)
  · intro q hq hqa
    rcases Nat.lt_trichotomy q p with hlt | heq | hgt
    · have := hok.ascending q p hlt hp
      have e : ADDR l (List.getD _ q 255) = ADDR l (List.getD _ p 255) := hqa.trans hpa.symm
      omega
    · exact heq
    · have := hok.ascending p q hgt hq
      have e : ADDR l (List.getD _ q 255) = ADDR l (List.getD _ p 255) := hqa.trans hpa.symm
      omega

theorem AttachComObjectsList_highest_index_witness :
    resetCoupler.rx.state = RX_INIT ∧ resetCoupler.tx.state = TX_INIT ∧
      resetCoupler.Consistent ∧
      ∃ tbl p, (AttachComObjectsList resetCoupler
          (some [⟨10, true⟩, ⟨5, true⟩, ⟨5, true⟩, ⟨20, false⟩]) 4).2.orderedIndexTable
          = some tbl ∧ p < tbl.length ∧ 1 ≤ tbl.getD p 255 ∧
        ∀ k, k < 4 → (objAt [⟨10, true⟩, ⟨5, true⟩, ⟨5, true⟩, ⟨20, false⟩] k).com = true →
          (objAt [⟨10, true⟩, ⟨5, true⟩, ⟨5, true⟩, ⟨20, false⟩] k).GetAddr =
            (objAt [⟨10, true⟩, ⟨5, true⟩, ⟨5, true⟩, ⟨20, false⟩] 1).GetAddr →
          k ≤ tbl.getD p 255 :=
  ⟨rfl, rfl, resetCoupler_consistent,
    (AttachComObjectsList_highest_index resetCoupler
      [⟨10, true⟩, ⟨5, true⟩, ⟨5, true⟩, ⟨20, false⟩] rfl rfl resetCoupler_consistent
      (by decide) 1 (by decide) rfl).imp
      (fun _ h => h.imp (fun _ h => ⟨h.1, h.2.1, h.2.2.2.2.1, h.2.2.2.2.2.2.1⟩))⟩

/-- C7: on a successfully attached list, `IsAddressAssigned` on the address of any
communication-enabled object returns true, and the range left by the halving steps still
contains the table position that holds the address. -/
theorem IsAddressAssigned_finds_attached (s : Coupler) (l : List KnxComObject)
    (hrx : s.rx.state = RX_INIT) (htx : s.tx.state = TX_INIT) (hcons : s.Consistent)
    (h255 : l.length ≤ 255) (j : Nat) (hj : j < l.length) (hc : (objAt l j).com = true)
    (m : Beyond) :
    (IsAddressAssigned (AttachComObjectsList s (some l) l.length).2 m
        (objAt l j).GetAddr).isSome = true ∧
      ∃ p, p < (AttachComObjectsList s (some l) l.length).2.assignedComObjectsNb ∧
        addrAt (AttachComObjectsList s (some l) l.length).2 m
          (tableAt (AttachComObjectsList s (some l) l.length).2 m p) = (objAt l j).GetAddr ∧
        (reduceLoop (AttachComObjectsList s (some l) l.length).2 m (objAt l j).GetAddr
          (divisionLoop (AttachComObjectsList s (some l) l.length).2.assignedComObjectsNb
            256 4 0) 0
          (((AttachComObjectsList s (some l) l.length).2.assignedComObjectsNb + 255) % 256)
          (AttachComObjectsList s (some l) l.length).2.assignedComObjectsNb).1 ≤ p ∧
        p ≤ (reduceLoop (AttachComObjectsList s (some l) l.length).2 m (objAt l j).GetAddr
          (divisionLoop (AttachComObjectsList s (some l) l.length).2.assignedComObjectsNb
            256 4 0) 0
          (((AttachComObjectsList s (some l) l.length).2.assignedComObjectsNb + 255) % 256)
          (AttachComObjectsList s (some l) l.length).2.assignedComObjectsNb).2 := by
  rw [attach_eq s l _ hrx htx hcons h255 j hj hc]
  have hat := attach_attached s l h255
  have hok := hat.ok
  have hlen := hat.length_le
  obtain ⟨p, hp, hpa⟩ := hok.cover j hj hc
  have hpa' : (objAt l j).GetAddr = ADDR l ((buildOrderedIndexTable l l.length
      (comAddrs l l.length).card).getD p 255) := hpa.symm
  simp only []
  rw [hpa']
  constructor
  · obtain ⟨q, -, hq, -⟩ := hat.lookup _ l _ m p hp
    rw [hq]
    rfl
  · have hnb : (s.attach l l.length).assignedComObjectsNb =
        (buildOrderedIndexTable l l.length (comAddrs l l.length).card).length := hat.nb
    have hp' : p < (s.attach l l.length).assignedComObjectsNb := by rw [hnb]; exact hp
    have e : ((s.attach l l.length).assignedComObjectsNb + 255) % 256 =
        (buildOrderedIndexTable l l.length (comAddrs l l.length).card).length - 1 := by
      omega
    obtain ⟨he1, -, -⟩ := hok.entry p hp
    refine ⟨p, hp', ?_, ?_⟩
    · rw [hat.tableAt_eq _ l _ m p hp, hat.addrAt_eq _ l _ m _ he1]
    · rw [e]
      obtain ⟨r1, r2, -⟩ := hat.reduceLoop_bounds _ l _ m p
        (divisionLoop (s.attach l l.length).assignedComObjectsNb 256 4 0) 0
        ((buildOrderedIndexTable l l.length (comAddrs l l.length).card).length - 1)
        (s.attach l l.length).assignedComObjectsNb
        (by omega) (by omega) (by omega) (by omega)
      exact ⟨r1, r2⟩

theorem IsAddressAssigned_finds_attached_witness :
    resetCoupler.rx.state = RX_INIT ∧ resetCoupler.tx.state = TX_INIT ∧
      resetCoupler.Consistent ∧ twentyObjects.length ≤ 255 ∧ 19 < twentyObjects.length ∧
      (objAt twentyObjects 19).com = true ∧
      (IsAddressAssigned (AttachComObjectsList resetCoupler (some twentyObjects)
        twentyObjects.length).2 ⟨fun _ => 0, fun _ => 0⟩
        (objAt twentyObjects 19).GetAddr).isSome = true :=
  ⟨rfl, rfl, resetCoupler_consistent, by decide, by decide, by decide,
    (IsAddressAssigned_finds_attached resetCoupler twentyObjects rfl rfl
      resetCoupler_consistent (by decide) 19 (by decide) (by decide)
      ⟨fun _ => 0, fun _ => 0⟩).1⟩

theorem comAddrs_card_of_distinct (l : List KnxComObject) (hcom : ∀ o ∈ l, o.com = true)
    (hdist : (l.map KnxComObject.GetAddr).Nodup) : (comAddrs l l.length).card = l.length := by
  rw [comAddrs_eq]
  have hf : l.filter (fun o => o.com) = l := List.filter_eq_self.2 hcom
  rw [hf, List.toFinset_card_of_nodup hdist, List.length_map]

/-- C1: a list of 1 to 255 objects, all communication-enabled and with pairwise distinct
addresses, attached in Init state: the call returns OK, the assigned count is the list
size, the table has that size and its referenced addresses are strictly ascending, and
`IsAddressAssigned` on the address of the object `k` returns true with index `k`. -/
theorem AttachComObjectsList_distinct (s : Coupler) (l : List KnxComObject)
    (hrx : s.rx.state = RX_INIT) (htx : s.tx.state = TX_INIT) (hcons : s.Consistent)
    (h1 : 1 ≤ l.length) (h255 : l.length ≤ 255) (hcom : ∀ o ∈ l, o.com = true)
    (hdist : (l.map KnxComObject.GetAddr).Nodup) :
    (AttachComObjectsList s (some l) l.length).1 = KNX_BUSCOUPLER_OK ∧
      (AttachComObjectsList s (some l) l.length).2.assignedComObjectsNb = l.length ∧
      (∃ tbl, (AttachComObjectsList s (some l) l.length).2.orderedIndexTable = some tbl ∧
        tbl.length = l.length ∧
        (tbl.map (fun e => (objAt l e).GetAddr)).Pairwise (· < ·)) ∧
      ∀ k, k < l.length → ∀ m : Beyond,
        IsAddressAssigned (AttachComObjectsList s (some l) l.length).2 m
          (objAt l k).GetAddr = some k := by
  have hc0 : IS_COM l 0 = true := hcom _ (objAt_mem l 0 (by omega))
  rw [attach_eq s l _ hrx htx hcons h255 0 (by omega) hc0]
  have hat := attach_attached s l h255
  have hok := hat.ok
  have hcard := comAddrs_card_of_distinct l hcom hdist
  have hlen : (buildOrderedIndexTable l l.length (comAddrs l l.length).card).length =
      l.length := hok.length.trans hcard
  refine ⟨rfl, hcard, ⟨_, rfl, hlen, hok.pairwise⟩, ?_⟩
  intro k hk m
  have hck : IS_COM l k = true := hcom _ (objAt_mem l k hk)
  obtain ⟨p, hp, hpa⟩ := hok.cover k hk hck
  obtain ⟨he1, -, -⟩ := hok.entry p hp
  have hek : (buildOrderedIndexTable l l.length (comAddrs l l.length).card).getD p 255 = k :=
    ADDR_inj_of_nodup l hdist _ _ he1 hk hpa
  obtain ⟨q, hqp, hq, halt⟩ := hat.lookup _ l _ m p hp
  rw [hek] at hq
  simp only []
  have hq' : IsAddressAssigned (s.attach l l.length) m (objAt l k).GetAddr =
      some ((buildOrderedIndexTable l l.length (comAddrs l l.length).card).getD q 255) := hq
  rw [hq']
  rcases halt with rfl | hgt
  · rw [hek]
  · obtain ⟨hq1, -, -⟩ := hok.entry q (by omega)
    omega

theorem AttachComObjectsList_distinct_witness :
    resetCoupler.rx.state = RX_INIT ∧ resetCoupler.tx.state = TX_INIT ∧
      resetCoupler.Consistent ∧
      (∀ o ∈ [(⟨30, true⟩ : KnxComObject), ⟨10, true⟩, ⟨20, true⟩], o.com = true) ∧
      ([(⟨30, true⟩ : KnxComObject), ⟨10, true⟩, ⟨20, true⟩].map KnxComObject.GetAddr).Nodup ∧
      (AttachComObjectsList resetCoupler
        (some [⟨30, true⟩, ⟨10, true⟩, ⟨20, true⟩]) 3).2.assignedComObjectsNb = 3 ∧
      IsAddressAssigned (AttachComObjectsList resetCoupler
        (some [⟨30, true⟩, ⟨10, true⟩, ⟨20, true⟩]) 3).2 ⟨fun _ => 0, fun _ => 0⟩
        (objAt [⟨30, true⟩, ⟨10, true⟩, ⟨20, true⟩] 2).GetAddr = some 2 :=
  ⟨rfl, rfl, resetCoupler_consistent, by decide, by decide,
    (AttachComObjectsList_distinct resetCoupler [⟨30, true⟩, ⟨10, true⟩, ⟨20, true⟩] rfl rfl
      resetCoupler_consistent (by decide) (by decide) (by decide) (by decide)).2.1,
    (AttachComObjectsList_distinct resetCoupler [⟨30, true⟩, ⟨10, true⟩, ⟨20, true⟩] rfl rfl
      resetCoupler_consistent (by decide) (by decide) (by decide) (by decide)).2.2.2 2
      (by decide) ⟨fun _ => 0, fun _ => 0⟩⟩

theorem TableOK.getD_mem (tbl : List Nat) (q : Nat) (hq : q < tbl.length) :
    tbl.getD q 255 ∈ tbl := by
  have e : tbl[q]? = some tbl[q] := List.getElem?_eq_getElem hq
  have : tbl.getD q 255 = tbl[q] := by simp [List.getD_eq_getElem?_getD, e]
  rw [this]
  exact List.getElem_mem hq

theorem specExample_attached :
    Attached (AttachComObjectsList resetCoupler (some specExample) 4).2 specExample
      (buildOrderedIndexTable specExample 4 (comAddrs specExample 4).card) := by
  have h := attach_eq resetCoupler specExample 4 rfl rfl resetCoupler_consistent
    (by decide) 0 (by decide) rfl
  rw [h]
  exact attach_attached resetCoupler specExample (by decide)

/-- C3, as the code has it: duplicates collapse to the highest original index. The table
entry for an address shared by several communication-enabled objects is the highest index
among them, and `IsAddressAssigned` on that address returns it when no table entry
exceeds the assigned count. On the list of spec §8 the count is 2, the table is [2, 0],
and the addresses 5, 10, 20, 7 resolve to 2, 0, not found, not found. -/
theorem AttachComObjectsList_duplicates (s : Coupler) (l : List KnxComObject)
    (hrx : s.rx.state = RX_INIT) (htx : s.tx.state = TX_INIT) (hcons : s.Consistent)
    (h255 : l.length ≤ 255) (j : Nat) (hj : j < l.length) (hc : (objAt l j).com = true) :
    (∃ tbl p, (AttachComObjectsList s (some l) l.length).2.orderedIndexTable = some tbl ∧
      p < tbl.length ∧
      (objAt l (tbl.getD p 255)).GetAddr = (objAt l j).GetAddr ∧
      (objAt l (tbl.getD p 255)).com = true ∧
      (∀ k, k < l.length → (objAt l k).com = true →
        (objAt l k).GetAddr = (objAt l j).GetAddr → k ≤ tbl.getD p 255) ∧
      ((∀ e ∈ tbl, e ≤ tbl.length) → ∀ m : Beyond,
        IsAddressAssigned (AttachComObjectsList s (some l) l.length).2 m
          (objAt l j).GetAddr = some (tbl.getD p 255))) ∧
    (AttachComObjectsList resetCoupler (some specExample) 4).2.assignedComObjectsNb = 2 ∧
    (AttachComObjectsList resetCoupler (some specExample) 4).2.orderedIndexTable
      = some [2, 0] ∧
    ∀ m : Beyond,
      IsAddressAssigned (AttachComObjectsList resetCoupler (some specExample) 4).2 m 5
        = some 2 ∧
      IsAddressAssigned (AttachComObjectsList resetCoupler (some specExample) 4).2 m 10
        = some 0 ∧
      IsAddressAssigned (AttachComObjectsList resetCoupler (some specExample) 4).2 m 20
        = none ∧
      IsAddressAssigned (AttachComObjectsList resetCoupler (some specExample) 4).2 m 7
        = none := by
  refine ⟨?_, by decide, by decide, ?_⟩
  · rw [attach_eq s l _ hrx htx hcons h255 j hj hc]
    have hat := attach_attached s l h255
    have hok := hat.ok
    obtain ⟨p, hp, hpa⟩ := hok.cover j hj hc
    obtain ⟨h1, h2, h3⟩ := hok.entry p hp
    refine ⟨_, p, rfl, hp, hpa, h2, ?_, ?_⟩
    · intro k hk hkc hka
      exact h3 k hk hkc (hka.trans hpa.symm)
    · intro hall m
      obtain ⟨q, hqp, hq, halt⟩ := hat.lookup _ l _ m p hp
      have hpa' : (objAt l j).GetAddr = ADDR l ((buildOrderedIndexTable l l.length
          (comAddrs l l.length).card).getD p 255) := hpa.symm
      simp only []
      rw [hpa']
      have hq' : IsAddressAssigned (s.attach l l.length) m (ADDR l
          ((buildOrderedIndexTable l l.length (comAddrs l l.length).card).getD p 255)) =
          some ((buildOrderedIndexTable l l.length (comAddrs l l.length).card).getD q 255) :=
        hq
      rw [hq']
      rcases halt with rfl | hgt
      · rfl
      · have := hall _ (TableOK.getD_mem _ q (by omega))
        omega
  · intro m
    have hb := specExample_attached.beyond _ _ _ m zeroBeyond
    rw [hb 5, hb 10, hb 20, hb 7]
    decide

theorem AttachComObjectsList_duplicates_witness :
    resetCoupler.rx.state = RX_INIT ∧ resetCoupler.tx.state = TX_INIT ∧
      resetCoupler.Consistent ∧ 2 < specExample.length ∧
      (objAt specExample 2).com = true ∧
      IsAddressAssigned (AttachComObjectsList resetCoupler (some specExample) 4).2
        zeroBeyond 20 = none :=
  ⟨rfl, rfl, resetCoupler_consistent, by decide, rfl,
    ((AttachComObjectsList_duplicates resetCoupler specExample rfl rfl
      resetCoupler_consistent (by decide) 2 (by decide) rfl).2.2.2 zeroBeyond).2.2.1⟩

/-- C3 as the spec states it fails on the spec's own example: the table is [2, 0], not
[1, 0], and address 5 resolves to index 2, not to the lowest index 1. -/
theorem duplicates_lowest_index_counterexample :
    (AttachComObjectsList resetCoupler (some specExample) 4).2.orderedIndexTable
        = some [2, 0] ∧
      (AttachComObjectsList resetCoupler (some specExample) 4).2.orderedIndexTable
        ≠ some [1, 0] ∧
      IsAddressAssigned (AttachComObjectsList resetCoupler (some specExample) 4).2
        zeroBeyond 5 = some 2 ∧
      IsAddressAssigned (AttachComObjectsList resetCoupler (some specExample) 4).2
        zeroBeyond 5 ≠ some 1 := by
  decide

/-- C2 at its failing inputs. With `sparseObjects` attached the table is [2] and the
count 1; address 99, held by no object, and address 1, held only by an object without
the communication flag, both resolve to index 2, where the naive scan finds nothing.
With `twoGroups` attached the table is [4, 1] and address 9 resolves to index 4, an
object of address 5, where the naive scan gives index 1. -/
theorem IsAddressAssigned_spurious_match :
    (AttachComObjectsList resetCoupler (some sparseObjects) 3).2.orderedIndexTable
        = some [2] ∧
      (AttachComObjectsList resetCoupler (some sparseObjects) 3).2.assignedComObjectsNb = 1 ∧
      IsAddressAssigned (AttachComObjectsList resetCoupler (some sparseObjects) 3).2
        zeroBeyond 99 = some 2 ∧
      naiveLookup (AttachComObjectsList resetCoupler (some sparseObjects) 3).2 99 = none ∧
      IsAddressAssigned (AttachComObjectsList resetCoupler (some sparseObjects) 3).2
        zeroBeyond 1 = some 2 ∧
      naiveLookup (AttachComObjectsList resetCoupler (some sparseObjects) 3).2 1 = none ∧
      (AttachComObjectsList resetCoupler (some twoGroups) 5).2.orderedIndexTable
        = some [4, 1] ∧
      IsAddressAssigned (AttachComObjectsList resetCoupler (some twoGroups) 5).2
        zeroBeyond 9 = some 4 ∧
      naiveLookup (AttachComObjectsList resetCoupler (some twoGroups) 5).2 9 = some 1 := by
  decide

/-! ## The life cycle -/

theorem StKnxCoupler_consistent (cb : Option (KnxTelegram → Nat)) (physicalAddr mode : Nat) :
    (StKnxCoupler cb physicalAddr mode).Consistent := fun _ => ⟨rfl, rfl⟩

theorem Reset_consistent (s : Coupler) (h : s.Consistent) : (Reset s).2.Consistent := h

theorem Init_consistent (s : Coupler) (h : s.Consistent) : (Init s).2.Consistent := h

theorem SendTelegram_consistent (cks : KnxTelegram → Nat) (s : Coupler) (t : KnxTelegram)
    (h : s.Consistent) (r : Nat × Coupler × KnxTelegram)
    (hr : SendTelegram cks s t = some r) : r.2.1.Consistent := by
  unfold SendTelegram at hr
  split at hr
  · cases hr; exact h
  · simp only [] at hr
    split at hr
    · exact absurd hr (by simp)
    · cases hr; exact h

theorem AttachComObjectsList_consistent (s : Coupler) (ol : Option (List KnxComObject))
    (n : Nat) (h : s.Consistent) : (AttachComObjectsList s ol n).2.Consistent := by
  by_cases hinit : s.rx.state ≠ RX_INIT ∨ s.tx.state ≠ TX_INIT
  · unfold AttachComObjectsList
    rw [if_pos hinit]
    exact h
  · unfold AttachComObjectsList
    rw [if_neg hinit, detach_of_consistent s h]
    have hd : s.detach.Consistent := fun _ => ⟨rfl, rfl⟩
    cases ol with
    | none => exact hd
    | some l =>
      simp only []
      split
      · exact hd
      · split
        · rename_i h0
          intro _
          exact ⟨h0, rfl⟩
        · intro hn
          exact absurd hn (by simp)

/-- C8: `AttachComObjectsList` returns `NotInitState` (254) exactly when the reception
state or the transmission state is not Init, which is the case on a freshly constructed
coupler and after `Init()`; it then leaves the coupler as it was, so that every
`IsAddressAssigned` answers as before; in every other case it returns OK (0). -/
theorem AttachComObjectsList_not_init (s : Coupler) (ol : Option (List KnxComObject))
    (n : Nat) :
    ((AttachComObjectsList s ol n).1 = KNX_BUSCOUPLER_ERROR_NOT_INIT_STATE ↔
        (s.rx.state ≠ RX_INIT ∨ s.tx.state ≠ TX_INIT)) ∧
      ((s.rx.state ≠ RX_INIT ∨ s.tx.state ≠ TX_INIT) →
        (AttachComObjectsList s ol n).2 = s ∧
        (AttachComObjectsList s ol n).2.comObjectsList = s.comObjectsList ∧
        (AttachComObjectsList s ol n).2.orderedIndexTable = s.orderedIndexTable ∧
        (AttachComObjectsList s ol n).2.assignedComObjectsNb = s.assignedComObjectsNb ∧
        ∀ (m : Beyond) (a : Nat),
          IsAddressAssigned (AttachComObjectsList s ol n).2 m a = IsAddressAssigned s m a) ∧
      (¬ (s.rx.state ≠ RX_INIT ∨ s.tx.state ≠ TX_INIT) →
        (AttachComObjectsList s ol n).1 = KNX_BUSCOUPLER_OK) ∧
      (∀ (cb : Option (KnxTelegram → Nat)) (pa mode : Nat),
        (AttachComObjectsList (StKnxCoupler cb pa mode) ol n).1
          = KNX_BUSCOUPLER_ERROR_NOT_INIT_STATE) ∧
      (AttachComObjectsList (Init s).2 ol n).1 = KNX_BUSCOUPLER_ERROR_NOT_INIT_STATE := by
  have hok : ¬ (s.rx.state ≠ RX_INIT ∨ s.tx.state ≠ TX_INIT) →
      (AttachComObjectsList s ol n).1 = KNX_BUSCOUPLER_OK := by
    intro hinit
    unfold AttachComObjectsList
    rw [if_neg hinit]
    cases ol with
    | none => rfl
    | some l =>
      simp only []
      split_ifs <;> rfl
  have hbad : (s.rx.state ≠ RX_INIT ∨ s.tx.state ≠ TX_INIT) →
      AttachComObjectsList s ol n = (KNX_BUSCOUPLER_ERROR_NOT_INIT_STATE, s) := by
    intro hinit
    unfold AttachComObjectsList
    rw [if_pos hinit]
  refine ⟨⟨?_, fun h => by rw [hbad h]⟩, ?_, hok, ?_, ?_⟩
  · intro h254
    by_contra hinit
    rw [hok hinit] at h254
    exact absurd h254 (by decide)
  · intro hinit
    rw [hbad hinit]
    exact ⟨rfl, rfl, rfl, rfl, fun _ _ => rfl⟩
  · intro cb pa mode
    unfold AttachComObjectsList
    rw [if_pos (Or.inl (by simp [StKnxCoupler]))]
  · unfold AttachComObjectsList
    rw [if_pos (Or.inl (by simp [Init]))]

theorem AttachComObjectsList_not_init_witness :
    ((Init (AttachComObjectsList resetCoupler (some specExample) 4).2).2.rx.state ≠ RX_INIT ∨
      (Init (AttachComObjectsList resetCoupler (some specExample) 4).2).2.tx.state ≠ TX_INIT) ∧
    (AttachComObjectsList (Init (AttachComObjectsList resetCoupler (some specExample) 4).2).2
        (some sparseObjects) 3).2
      = (Init (AttachComObjectsList resetCoupler (some specExample) 4).2).2 :=
  ⟨Or.inl (by decide),
    ((AttachComObjectsList_not_init
      (Init (AttachComObjectsList resetCoupler (some specExample) 4).2).2
      (some sparseObjects) 3).2.1 (Or.inl (by decide))).1⟩

/-- C9: `AttachComObjectsList` called in Init state with a null list, with list size 0,
or with a list in which no object has the communication flag returns OK and leaves the
coupler without index, count 0, no table, no list, whatever was attached before;
afterwards `IsAddressAssigned` returns false for every address. -/
theorem AttachComObjectsList_empty (s : Coupler) (ol : Option (List KnxComObject)) (n : Nat)
    (hrx : s.rx.state = RX_INIT) (htx : s.tx.state = TX_INIT) (hcons : s.Consistent)
    (h : ol = none ∨ n = 0 ∨ ∃ l, ol = some l ∧ n = l.length ∧ ∀ o ∈ l, o.com = false) :
    (AttachComObjectsList s ol n).1 = KNX_BUSCOUPLER_OK ∧
      (AttachComObjectsList s ol n).2 = s.detach ∧
      (AttachComObjectsList s ol n).2.assignedComObjectsNb = 0 ∧
      (AttachComObjectsList s ol n).2.orderedIndexTable = none ∧
      (AttachComObjectsList s ol n).2.comObjectsList = none ∧
      ∀ (m : Beyond) (a : Nat), IsAddressAssigned (AttachComObjectsList s ol n).2 m a = none := by
  have key : AttachComObjectsList s ol n = (KNX_BUSCOUPLER_OK, s.detach) := by
    rcases h with rfl | rfl | ⟨l, rfl, rfl, hno⟩
    · exact attach_eq_null s n hrx htx hcons
    · cases ol with
      | none => exact attach_eq_null s 0 hrx htx hcons
      | some l => exact attach_eq_nocom s l 0 hrx htx hcons (fun j hj => by omega)
    · exact attach_eq_nocom s l _ hrx htx hcons (fun j hj => hno _ (objAt_mem l j hj))
  rw [key]
  exact ⟨rfl, rfl, rfl, rfl, rfl, fun _ _ => rfl⟩

theorem AttachComObjectsList_empty_witness :
    (AttachComObjectsList resetCoupler (some specExample) 4).2.rx.state = RX_INIT ∧
      (AttachComObjectsList resetCoupler (some specExample) 4).2.tx.state = TX_INIT ∧
      (AttachComObjectsList resetCoupler (some specExample) 4).2.Consistent ∧
      IsAddressAssigned (AttachComObjectsList resetCoupler (some specExample) 4).2
        zeroBeyond 5 = some 2 ∧
      IsAddressAssigned (AttachComObjectsList
        (AttachComObjectsList resetCoupler (some specExample) 4).2
        (some [⟨5, false⟩]) 1).2 zeroBeyond 5 = none :=
  ⟨by decide, by decide,
    AttachComObjectsList_consistent _ _ _ resetCoupler_consistent, by decide,
    (AttachComObjectsList_empty (AttachComObjectsList resetCoupler (some specExample) 4).2
      (some [⟨5, false⟩]) 1 (by decide) (by decide)
      (AttachComObjectsList_consistent _ _ _ resetCoupler_consistent)
      (Or.inr (Or.inr ⟨_, rfl, rfl, by decide⟩))).2.2.2.2.2 zeroBeyond 5⟩

/-- C10, as the code has it: `SendTelegram` returns Error (255) whenever the
transmission state is not Idle, without invoking the transmit function and without
touching the telegram or the coupler; in Idle state with a transmit function registered
it invokes that function once, on the telegram, returns its result code unchanged,
whatever the code is, and leaves the transmission state Idle. -/
theorem SendTelegram_result (cks : KnxTelegram → Nat) (s : Coupler) (t : KnxTelegram) :
    (s.tx.state ≠ TX_IDLE → SendTelegram cks s t = some (KNX_BUSCOUPLER_ERROR, s, t)) ∧
      (s.tx.state = TX_IDLE → ∀ cb, s.extTxCb = some cb →
        SendTelegram cks s t =
          some (cb (handedOver cks s t),
            { s with calls := s.calls ++ [Call.transmit (handedOver cks s t)] },
            handedOver cks s t) ∧
        ({ s with calls := s.calls ++ [Call.transmit (handedOver cks s t)] } :
          Coupler).tx.state = TX_IDLE) := by
  constructor
  · intro h
    unfold SendTelegram
    rw [if_pos h]
  · intro h cb hcb
    refine ⟨?_, h⟩
    unfold SendTelegram
    rw [← h, if_neg (fun hne => hne rfl)]
    simp only []
    rw [hcb]
    rfl

theorem SendTelegram_result_witness :
    (Init (StKnxCoupler (some (fun t => t.checksum)) 0x1101 0)).2.tx.state = TX_IDLE ∧
      (Init (StKnxCoupler (some (fun t => t.checksum)) 0x1101 0)).2.extTxCb
        = some (fun t => t.checksum) ∧
      SendTelegram (fun t => t.sourceAddress % 256)
        (Init (StKnxCoupler (some (fun t => t.checksum)) 0x1101 0)).2 ⟨7, 9, [], 3⟩ =
        some (1,
          { (Init (StKnxCoupler (some (fun t => t.checksum)) 0x1101 0)).2 with
            calls := [Call.transmit ⟨0x1101, 9, [], 1⟩] },
          ⟨0x1101, 9, [], 1⟩) :=
  ⟨rfl, rfl,
    ((SendTelegram_result (fun t => t.sourceAddress % 256)
      (Init (StKnxCoupler (some (fun t => t.checksum)) 0x1101 0)).2 ⟨7, 9, [], 3⟩).2 rfl
      (fun t => t.checksum) rfl).1⟩

/-- C10 as the spec states it fails: in Idle state, with a transmit function that
returns 255, `SendTelegram` returns 255 although the transmission state is Idle. -/
theorem SendTelegram_error_iff_counterexample :
    (Init (StKnxCoupler (some (fun _ => 255)) 0 0)).2.tx.state = TX_IDLE ∧
      (SendTelegram (fun _ => 0) (Init (StKnxCoupler (some (fun _ => 255)) 0 0)).2
        KnxTelegram.cleared).map Prod.fst = some KNX_BUSCOUPLER_ERROR := by
  decide

/-! ## Sending and the life cycle states -/

/-- C11: a telegram sent in Idle state whose source address differs from the physical
address is handed to the transmit function with the source address set to the physical
address and the checksum recomputed on the telegram so changed, nothing else touched; a
telegram whose source address is the physical address is handed over as it is. -/
theorem SendTelegram_source_address (cks : KnxTelegram → Nat) (s : Coupler)
    (t : KnxTelegram) (cb : KnxTelegram → Nat) (hidle : s.tx.state = TX_IDLE)
    (hcb : s.extTxCb = some cb) :
    ∃ r, SendTelegram cks s t = some r ∧
      r.2.1.calls = s.calls ++ [Call.transmit r.2.2] ∧
      (t.GetSourceAddress ≠ s.physicalAddr →
        r.2.2.sourceAddress = s.physicalAddr % 65536 ∧
        r.2.2.checksum = cks (t.SetSourceAddress s.physicalAddr) % 256 ∧
        r.2.2.targetAddress = t.targetAddress ∧ r.2.2.payload = t.payload) ∧
      (t.GetSourceAddress = s.physicalAddr → r.2.2 = t) := by
  refine ⟨(cb (handedOver cks s t),
    { s with calls := s.calls ++ [Call.transmit (handedOver cks s t)] },
    handedOver cks s t), ?_, rfl, ?_, ?_⟩
  · unfold SendTelegram
    rw [← hidle, if_neg (fun hne => hne rfl)]
    simp only []
    rw [hcb]
    rfl
  · intro hne
    simp only [handedOver, if_pos hne]
    exact ⟨rfl, rfl, rfl, rfl⟩
  · intro heq
    simp only [handedOver]
    rw [if_neg (fun hne => hne heq)]

theorem SendTelegram_source_address_witness :
    (Init (StKnxCoupler (some (fun t => t.checksum)) 0x1101 0)).2.tx.state = TX_IDLE ∧
      (Init (StKnxCoupler (some (fun t => t.checksum)) 0x1101 0)).2.extTxCb
        = some (fun t => t.checksum) ∧
      ∃ r, SendTelegram (fun t => (t.sourceAddress + t.targetAddress) % 256)
          (Init (StKnxCoupler (some (fun t => t.checksum)) 0x1101 0)).2 ⟨7, 9, [1, 2], 3⟩
          = some r ∧
        r.2.2 = ⟨0x1101, 9, [1, 2], 10⟩ :=
  ⟨rfl, rfl,
    (SendTelegram_source_address (fun t => (t.sourceAddress + t.targetAddress) % 256)
      (Init (StKnxCoupler (some (fun t => t.checksum)) 0x1101 0)).2 ⟨7, 9, [1, 2], 3⟩
      (fun t => t.checksum) rfl rfl).imp
      (fun r h => ⟨h.1, by
        obtain ⟨h1, h2, h3, h4⟩ := h.2.2.1 (by decide)
        cases hr : r.2.2
        rw [hr] at h1 h2 h3 h4
        simp only at h1 h2 h3 h4
        subst h1 h2 h3 h4
        decide⟩)⟩

/-- C16: `Reset()` called in any state returns OK and puts both state machines in
Init, so that an `AttachComObjectsList` right after it is accepted; `Init()` called in any
state returns OK and puts the reception in IdleWaitingForControlField and the
transmission in Idle; neither touches the attached list, the table, the count or the
reception buffer. -/
theorem Reset_Init_states (s : Coupler) :
    ((Reset s).1 = KNX_BUSCOUPLER_OK ∧
      (Reset s).2.rx.state = RX_INIT ∧ (Reset s).2.tx.state = TX_INIT ∧
      (∀ (ol : Option (List KnxComObject)) (n : Nat),
        (AttachComObjectsList (Reset s).2 ol n).1 = KNX_BUSCOUPLER_OK) ∧
      (Reset s).2.comObjectsList = s.comObjectsList ∧
      (Reset s).2.orderedIndexTable = s.orderedIndexTable ∧
      (Reset s).2.assignedComObjectsNb = s.assignedComObjectsNb ∧
      (Reset s).2.rx.receivedTelegram = s.rx.receivedTelegram) ∧
    ((Init s).1 = KNX_BUSCOUPLER_OK ∧
      (Init s).2.rx.state = RX_IDLE_WAITING_FOR_CTRL_FIELD ∧ (Init s).2.tx.state = TX_IDLE ∧
      (Init s).2.comObjectsList = s.comObjectsList ∧
      (Init s).2.orderedIndexTable = s.orderedIndexTable ∧
      (Init s).2.assignedComObjectsNb = s.assignedComObjectsNb ∧
      (Init s).2.rx.receivedTelegram = s.rx.receivedTelegram) := by
  refine ⟨⟨rfl, rfl, rfl, ?_, rfl, rfl, rfl, rfl⟩, rfl, rfl, rfl, rfl, rfl, rfl, rfl⟩
  intro ol n
  unfold AttachComObjectsList
  rw [if_neg (by simp [Reset])]
  cases ol with
  | none => rfl
  | some l =>
    simp only []
    split_ifs <;> rfl

/-! ## The reception task -/

theorem receiving_iff (st : RxState) :
    st.receiving ↔ st.toNat ≥ RX_EIB_TELEGRAM_RECEPTION_STARTED.toNat := by
  cases st <;> simp [RxState.receiving, RxState.toNat]

theorem emitEvent_of_set (e : BusCouplerEvent) (s : Coupler) (h : s.evtCallbackFct = true) :
    emitEvent e s = some { s with calls := s.calls ++ [Call.event e] } := by
  unfold emitEvent
  rw [if_pos h]

theorem emitEvent_calls (e : BusCouplerEvent) (s s2 : Coupler) (h : emitEvent e s = some s2) :
    s2 = { s with calls := s.calls ++ [Call.event e] } := by
  unfold emitEvent at h
  split at h
  · exact (Option.some.inj h).symm
  · exact absurd h (by simp)

theorem RXTask_polled_rest (cks : KnxTelegram → Nat) (micros : Nat) (s : Coupler)
    (hpoll : s.extTxCb = none)
    (h : ¬ (s.rx.state.receiving ∧
      TimeDeltaWord (micros % 65536) s.lastByteRxTimeMicrosec > 2000)) :
    RXTask cks micros s = some s := by
  unfold RXTask
  rw [hpoll, if_neg (by simp)]
  by_cases hr : s.rx.state.receiving
  · rw [if_pos ((receiving_iff _).1 hr)]
    simp only []
    rw [if_neg (fun hd => h ⟨hr, hd⟩)]
  · rw [if_neg (fun hge => hr ((receiving_iff _).2 hge))]

theorem RXTask_polled_eop (cks : KnxTelegram → Nat) (micros : Nat) (s : Coupler)
    (hpoll : s.extTxCb = none) (hr : s.rx.state.receiving)
    (hd : TimeDeltaWord (micros % 65536) s.lastByteRxTimeMicrosec > 2000) :
    RXTask cks micros s =
      (match s.rx.state with
        | RX_EIB_TELEGRAM_RECEPTION_STARTED =>
          emitEvent BUSCOUPLER_EVENT_EIB_TELEGRAM_RECEPTION_ERROR s
        | RX_EIB_TELEGRAM_RECEPTION_LENGTH_INVALID =>
          emitEvent BUSCOUPLER_EVENT_EIB_TELEGRAM_RECEPTION_ERROR s
        | RX_EIB_TELEGRAM_RECEPTION_ADDRESSED =>
          if s.telegram.IsChecksumCorrect cks = true then
            emitEvent BUSCOUPLER_EVENT_RECEIVED_EIB_TELEGRAM (stageReceived s.telegram s)
          else emitEvent BUSCOUPLER_EVENT_EIB_TELEGRAM_RECEPTION_ERROR s
        | _ => some s).map toIdle := by
  unfold RXTask
  rw [hpoll, if_neg (by simp), if_pos ((receiving_iff _).1 hr)]
  simp only []
  rw [if_pos hd]
  rfl

theorem map_toIdle_state (o : Option Coupler) (s2 : Coupler) (h : o.map toIdle = some s2) :
    s2.rx.state = RX_IDLE_WAITING_FOR_CTRL_FIELD := by
  cases o with
  | none => exact absurd h (by simp)
  | some a =>
    have e : toIdle a = s2 := Option.some.inj h
    rw [← e]
    rfl

theorem TimeDeltaWord_elapsed (T0 T1 : Nat) (h : T0 ≤ T1) (hlt : T1 - T0 < 65536) :
    TimeDeltaWord (T1 % 65536) (T0 % 65536) = T1 - T0 := by
  unfold TimeDeltaWord
  omega

/-- C12: without a transmit callback, `RXTask` leaves the coupler as it is and emits
nothing unless a telegram is being received (ReceptionStarted, ReceptionLengthInvalid,
ReceptionAddressed, ReceptionNotAddressed) and `TimeDeltaWord(now, lastByteTime)` is
strictly above 2000; in that case it ends the reception: the state becomes
IdleWaitingForControlField, so that any later `RXTask` does nothing, and with the event
callback set the task does return. `TimeDeltaWord` of two readings of the 16-bit counter
is the elapsed time whenever that is below 65536. -/
theorem RXTask_end_of_packet (cks : KnxTelegram → Nat) (micros : Nat) (s : Coupler)
    (hpoll : s.extTxCb = none) :
    (RXTask cks micros s = some s ↔
        ¬ (s.rx.state.receiving ∧
          TimeDeltaWord (micros % 65536) s.lastByteRxTimeMicrosec > 2000)) ∧
      (s.rx.state.receiving →
        TimeDeltaWord (micros % 65536) s.lastByteRxTimeMicrosec > 2000 →
        (s.evtCallbackFct = true → ∃ s2, RXTask cks micros s = some s2) ∧
        ∀ s2, RXTask cks micros s = some s2 →
          s2.rx.state = RX_IDLE_WAITING_FOR_CTRL_FIELD ∧
          ∀ micros2, RXTask cks micros2 s2 = some s2) ∧
      (∀ last, TimeDeltaWord ((last + 2000) % 65536) (last % 65536) = 2000) ∧
      ∀ T0 T1, T0 ≤ T1 → T1 - T0 < 65536 →
        TimeDeltaWord (T1 % 65536) (T0 % 65536) = T1 - T0 := by
  refine ⟨⟨?_, RXTask_polled_rest cks micros s hpoll⟩, ?_, ?_, TimeDeltaWord_elapsed⟩
  · intro h ⟨hr, hd⟩
    rw [RXTask_polled_eop cks micros s hpoll hr hd] at h
    have hst := map_toIdle_state _ _ h
    rw [hst] at hr
    revert hr
    decide
  · intro hr hd
    rw [RXTask_polled_eop cks micros s hpoll hr hd]
    constructor
    · intro hevt
      rcases hr with h | h | h | h <;> rw [h] <;> simp only []
      · exact ⟨_, by rw [emitEvent_of_set _ _ hevt]; rfl⟩
      · exact ⟨_, by rw [emitEvent_of_set _ _ hevt]; rfl⟩
      · split
        · exact ⟨_, by rw [emitEvent_of_set _ (stageReceived s.telegram s) hevt]; rfl⟩
        · exact ⟨_, by rw [emitEvent_of_set _ _ hevt]; rfl⟩
      · exact ⟨_, rfl⟩
    · intro s2 h2
      have hst := map_toIdle_state _ _ h2
      refine ⟨hst, fun micros2 => ?_⟩
      have hpoll2 : s2.extTxCb = none := by
        rcases hr with h | h | h | h <;> rw [h] at h2 <;> simp only [] at h2
        · cases he : emitEvent BUSCOUPLER_EVENT_EIB_TELEGRAM_RECEPTION_ERROR s with
          | none => rw [he] at h2; exact absurd h2 (by simp)
          | some a =>
            rw [he] at h2
            rw [← Option.some.inj h2, emitEvent_calls _ _ _ he]
            exact hpoll
        · cases he : emitEvent BUSCOUPLER_EVENT_EIB_TELEGRAM_RECEPTION_ERROR s with
          | none => rw [he] at h2; exact absurd h2 (by simp)
          | some a =>
            rw [he] at h2
            rw [← Option.some.inj h2, emitEvent_calls _ _ _ he]
            exact hpoll
        · split at h2
          · cases he : emitEvent BUSCOUPLER_EVENT_RECEIVED_EIB_TELEGRAM
                (stageReceived s.telegram s) with
            | none => rw [he] at h2; exact absurd h2 (by simp)
            | some a =>
              rw [he] at h2
              rw [← Option.some.inj h2, emitEvent_calls _ _ _ he]
              exact hpoll
          · cases he : emitEvent BUSCOUPLER_EVENT_EIB_TELEGRAM_RECEPTION_ERROR s with
            | none => rw [he] at h2; exact absurd h2 (by simp)
            | some a =>
              rw [he] at h2
              rw [← Option.some.inj h2, emitEvent_calls _ _ _ he]
              exact hpoll
        · rw [← Option.some.inj h2]
          exact hpoll
      apply RXTask_polled_rest cks micros2 s2 hpoll2
      rintro ⟨hr2, -⟩
      rw [hst] at hr2
      revert hr2
      decide
  · intro last
    unfold TimeDeltaWord
    omega

theorem RXTask_end_of_packet_witness :
    (polledCoupler RX_EIB_TELEGRAM_RECEPTION_STARTED KnxTelegram.cleared 65000).extTxCb
        = none ∧
      RXTask sumChecksum (65536 + 1464)
        (polledCoupler RX_EIB_TELEGRAM_RECEPTION_STARTED KnxTelegram.cleared 65000) =
        some (polledCoupler RX_EIB_TELEGRAM_RECEPTION_STARTED KnxTelegram.cleared 65000) :=
  ⟨rfl, (RXTask_end_of_packet sumChecksum (65536 + 1464)
    (polledCoupler RX_EIB_TELEGRAM_RECEPTION_STARTED KnxTelegram.cleared 65000) rfl).1.2
    (by decide)⟩

/-- C13: without a transmit callback and with the event callback set, when `RXTask`
detects the end of packet, it emits one ReceptionError and nothing else from
ReceptionStarted and from ReceptionLengthInvalid; from ReceptionAddressed it copies the
staged telegram into the reception buffer, records the staged index and emits one
TelegramReceived when the checksum of the staged telegram is valid, and emits one
ReceptionError, buffer and index untouched, when it is not; from ReceptionNotAddressed
it emits nothing; in all four cases the reception state becomes
IdleWaitingForControlField and nothing else changes. -/
theorem RXTask_end_of_packet_events (cks : KnxTelegram → Nat) (micros : Nat) (s : Coupler)
    (hpoll : s.extTxCb = none) (hevt : s.evtCallbackFct = true)
    (hd : TimeDeltaWord (micros % 65536) s.lastByteRxTimeMicrosec > 2000) :
    ((s.rx.state = RX_EIB_TELEGRAM_RECEPTION_STARTED ∨
        s.rx.state = RX_EIB_TELEGRAM_RECEPTION_LENGTH_INVALID) →
      RXTask cks micros s = some { s with
        calls := s.calls ++ [Call.event BUSCOUPLER_EVENT_EIB_TELEGRAM_RECEPTION_ERROR]
        rx.state := RX_IDLE_WAITING_FOR_CTRL_FIELD }) ∧
    (s.rx.state = RX_EIB_TELEGRAM_RECEPTION_ADDRESSED →
      s.telegram.IsChecksumCorrect cks = true →
      RXTask cks micros s = some { s with
        calls := s.calls ++ [Call.event BUSCOUPLER_EVENT_RECEIVED_EIB_TELEGRAM]
        rx.receivedTelegram := s.telegram
        rx.addressedComObjectIndex := s.addressedComObjectIndex
        rx.state := RX_IDLE_WAITING_FOR_CTRL_FIELD }) ∧
    (s.rx.state = RX_EIB_TELEGRAM_RECEPTION_ADDRESSED →
      s.telegram.IsChecksumCorrect cks = false →
      RXTask cks micros s = some { s with
        calls := s.calls ++ [Call.event BUSCOUPLER_EVENT_EIB_TELEGRAM_RECEPTION_ERROR]
        rx.state := RX_IDLE_WAITING_FOR_CTRL_FIELD }) ∧
    (s.rx.state = RX_EIB_TELEGRAM_RECEPTION_NOT_ADDRESSED →
      RXTask cks micros s = some { s with rx.state := RX_IDLE_WAITING_FOR_CTRL_FIELD }) := by
  refine ⟨?_, ?_, ?_, ?_⟩
  · intro h
    rw [RXTask_polled_eop cks micros s hpoll (by rcases h with h | h <;> rw [h] <;> decide) hd]
    rcases h with h | h <;> rw [h] <;> simp only [] <;> rw [emitEvent_of_set _ _ hevt] <;> rfl
  · intro h hc
    rw [RXTask_polled_eop cks micros s hpoll (by rw [h]; decide) hd, h]
    simp only []
    rw [if_pos hc, emitEvent_of_set _ (stageReceived s.telegram s) hevt]
    rfl
  · intro h hc
    rw [RXTask_polled_eop cks micros s hpoll (by rw [h]; decide) hd, h]
    simp only []
    rw [if_neg (by simp [hc]), emitEvent_of_set _ _ hevt]
    rfl
  · intro h
    rw [RXTask_polled_eop cks micros s hpoll (by rw [h]; decide) hd, h]
    rfl

theorem RXTask_end_of_packet_events_witness :
    (polledCoupler RX_EIB_TELEGRAM_RECEPTION_ADDRESSED ⟨7, 9, [1], 16⟩ 65000).extTxCb = none ∧
      (polledCoupler RX_EIB_TELEGRAM_RECEPTION_ADDRESSED ⟨7, 9, [1], 16⟩ 65000).evtCallbackFct
        = true ∧
      TimeDeltaWord ((65536 + 1465) % 65536)
        (polledCoupler RX_EIB_TELEGRAM_RECEPTION_ADDRESSED ⟨7, 9, [1], 16⟩
          65000).lastByteRxTimeMicrosec > 2000 ∧
      RXTask sumChecksum (65536 + 1465)
        (polledCoupler RX_EIB_TELEGRAM_RECEPTION_ADDRESSED ⟨7, 9, [1], 16⟩ 65000) =
        some { polledCoupler RX_EIB_TELEGRAM_RECEPTION_ADDRESSED ⟨7, 9, [1], 16⟩ 65000 with
          calls := [Call.event BUSCOUPLER_EVENT_RECEIVED_EIB_TELEGRAM]
          rx := ⟨RX_IDLE_WAITING_FOR_CTRL_FIELD, ⟨7, 9, [1], 16⟩, 3⟩ } :=
  ⟨rfl, rfl, by decide,
    (RXTask_end_of_packet_events sumChecksum (65536 + 1465)
      (polledCoupler RX_EIB_TELEGRAM_RECEPTION_ADDRESSED ⟨7, 9, [1], 16⟩ 65000)
      rfl rfl (by decide)).2.1 rfl (by decide)⟩

/-! ## Delivery of received telegrams -/

theorem SetReceivedTelegram_unresolved (cks : KnxTelegram → Nat) (m : Beyond) (s : Coupler)
    (t : KnxTelegram) (h : IsAddressAssigned s m t.GetTargetAddress = none) :
    SetReceivedTelegram cks m s t = some s := by
  unfold SetReceivedTelegram
  rw [h]

theorem SetReceivedTelegram_resolved (cks : KnxTelegram → Nat) (m : Beyond) (s : Coupler)
    (t : KnxTelegram) (index : Nat) (h : IsAddressAssigned s m t.GetTargetAddress = some index) :
    SetReceivedTelegram cks m s t =
      if t.IsChecksumCorrect cks = true then
        (emitEvent BUSCOUPLER_EVENT_RECEIVED_EIB_TELEGRAM
          (stageReceived t { s with addressedComObjectIndex := index })).map toIdle
      else some { s with addressedComObjectIndex := index } := by
  unfold SetReceivedTelegram
  rw [h]
  rfl

/-- C14: `SetReceivedTelegram`, for every telegram and every coupler with the event
callback set. If `IsAddressAssigned` resolves the target address and the checksum of the
telegram is valid, the telegram is copied into the reception buffer, the resolved index
is recorded as the addressed object index, one TelegramReceived is emitted and the
reception state becomes IdleWaitingForControlField. If the address does not resolve or
the checksum is invalid, nothing is emitted and the reception state, the reception
buffer and the recorded index stay as they are. -/
theorem SetReceivedTelegram_delivery (cks : KnxTelegram → Nat) (m : Beyond) (s : Coupler)
    (t : KnxTelegram) (hevt : s.evtCallbackFct = true) :
    (∀ index, IsAddressAssigned s m t.GetTargetAddress = some index →
      t.IsChecksumCorrect cks = true →
      SetReceivedTelegram cks m s t = some { s with
        addressedComObjectIndex := index
        calls := s.calls ++ [Call.event BUSCOUPLER_EVENT_RECEIVED_EIB_TELEGRAM]
        rx.receivedTelegram := t
        rx.addressedComObjectIndex := index
        rx.state := RX_IDLE_WAITING_FOR_CTRL_FIELD }) ∧
    ((IsAddressAssigned s m t.GetTargetAddress = none ∨ t.IsChecksumCorrect cks = false) →
      ∃ s2, SetReceivedTelegram cks m s t = some s2 ∧ s2.calls = s.calls ∧
        s2.rx.state = s.rx.state ∧ s2.rx.receivedTelegram = s.rx.receivedTelegram ∧
        s2.rx.addressedComObjectIndex = s.rx.addressedComObjectIndex) := by
  constructor
  · intro index hi hc
    rw [SetReceivedTelegram_resolved cks m s t index hi, if_pos hc,
      emitEvent_of_set _ (stageReceived t { s with addressedComObjectIndex := index }) hevt]
    rfl
  · intro h
    cases hi : IsAddressAssigned s m t.GetTargetAddress with
    | none => exact ⟨s, SetReceivedTelegram_unresolved cks m s t hi, rfl, rfl, rfl, rfl⟩
    | some index =>
      rcases h with h | h
      · rw [hi] at h
        exact absurd h (by simp)
      · rw [SetReceivedTelegram_resolved cks m s t index hi, if_neg (by simp [h])]
        exact ⟨_, rfl, rfl, rfl, rfl, rfl⟩

theorem SetReceivedTelegram_delivery_witness :
    listeningCoupler.evtCallbackFct = true ∧
      IsAddressAssigned listeningCoupler zeroBeyond
        (KnxTelegram.GetTargetAddress ⟨7, 10, [1], 17⟩) = some 0 ∧
      KnxTelegram.IsChecksumCorrect sumChecksum ⟨7, 10, [1], 17⟩ = true ∧
      SetReceivedTelegram sumChecksum zeroBeyond listeningCoupler ⟨7, 10, [1], 17⟩ =
        some { listeningCoupler with
          addressedComObjectIndex := 0
          calls := [Call.event BUSCOUPLER_EVENT_RECEIVED_EIB_TELEGRAM]
          rx := ⟨RX_IDLE_WAITING_FOR_CTRL_FIELD, ⟨7, 10, [1], 17⟩, 0⟩ } :=
  ⟨rfl, by decide, by decide,
    (SetReceivedTelegram_delivery sumChecksum zeroBeyond listeningCoupler ⟨7, 10, [1], 17⟩
      rfl).1 0 (by decide) (by decide)⟩

theorem newCalls_self (s : Coupler) : newCalls s s = [] := by
  simp [newCalls]

theorem newCalls_emit (e : BusCouplerEvent) (s a s2 : Coupler) (hc : a.calls = s.calls)
    (h : (emitEvent e a).map toIdle = some s2) : newCalls s s2 = [Call.event e] := by
  cases he : emitEvent e a with
  | none => rw [he] at h; exact absurd h (by simp)
  | some b =>
    rw [he] at h
    have e1 := emitEvent_calls _ _ _ he
    have e2 : toIdle b = s2 := Option.some.inj h
    rw [← e2, e1]
    simp [newCalls, toIdle, hc]

theorem received_ne_error :
    Call.event BUSCOUPLER_EVENT_RECEIVED_EIB_TELEGRAM ∉
      [Call.event BUSCOUPLER_EVENT_EIB_TELEGRAM_RECEPTION_ERROR] := by
  decide

theorem map_toIdle_emit (e : BusCouplerEvent) (a s2 : Coupler)
    (h : (emitEvent e a).map toIdle = some s2) :
    a.evtCallbackFct = true ∧ s2 = toIdle { a with calls := a.calls ++ [Call.event e] } := by
  by_cases hev : a.evtCallbackFct = true
  · rw [emitEvent_of_set e a hev] at h
    exact ⟨hev, (Option.some.inj h).symm⟩
  · unfold emitEvent at h
    rw [if_neg hev] at h
    exact absurd h (by simp)

/-- What a call of `RXTask` that returns can have done. -/
theorem RXTask_result (cks : KnxTelegram → Nat) (micros : Nat) (s s2 : Coupler)
    (h : RXTask cks micros s = some s2) :
    s2 = s ∨ s2 = toIdle s ∨
      s2 = toIdle { s with
        calls := s.calls ++ [Call.event BUSCOUPLER_EVENT_EIB_TELEGRAM_RECEPTION_ERROR] } ∨
      (s.rx.state = RX_EIB_TELEGRAM_RECEPTION_ADDRESSED ∧
        s.telegram.IsChecksumCorrect cks = true ∧ s.evtCallbackFct = true ∧
        s2 = toIdle { stageReceived s.telegram s with
          calls := s.calls ++ [Call.event BUSCOUPLER_EVENT_RECEIVED_EIB_TELEGRAM] }) := by
  by_cases hcb : s.extTxCb.isSome = true
  · unfold RXTask at h
    rw [if_pos hcb] at h
    cases hst : s.rx.state with
    | RX_EIB_TELEGRAM_RECEPTION_ADDRESSED =>
      rw [hst] at h
      simp only [] at h
      split at h
      · rename_i hc
        obtain ⟨h1, h2⟩ := map_toIdle_emit _ _ _ h
        exact Or.inr (Or.inr (Or.inr ⟨rfl, hc, h1, h2⟩))
      · exact Or.inl (Option.some.inj h).symm
    | _ =>
      rw [hst] at h
      exact Or.inl (Option.some.inj h).symm
  · have hpoll : s.extTxCb = none := by
      cases hh : s.extTxCb with
      | none => rfl
      | some f => rw [hh] at hcb; exact absurd rfl hcb
    by_cases hfin : s.rx.state.receiving ∧
        TimeDeltaWord (micros % 65536) s.lastByteRxTimeMicrosec > 2000
    · rw [RXTask_polled_eop cks micros s hpoll hfin.1 hfin.2] at h
      rcases hfin.1 with hst | hst | hst | hst <;> rw [hst] at h <;> simp only [] at h
      · exact Or.inr (Or.inr (Or.inl (map_toIdle_emit _ _ _ h).2))
      · exact Or.inr (Or.inr (Or.inl (map_toIdle_emit _ _ _ h).2))
      · split at h
        · rename_i hc
          obtain ⟨h1, h2⟩ := map_toIdle_emit _ _ _ h
          exact Or.inr (Or.inr (Or.inr ⟨hst, hc, h1, h2⟩))
        · exact Or.inr (Or.inr (Or.inl (map_toIdle_emit _ _ _ h).2))
      · exact Or.inr (Or.inl (Option.some.inj h).symm)
    · rw [RXTask_polled_rest cks micros s hpoll hfin] at h
      exact Or.inl (Option.some.inj h).symm

/-- What a call of `SetReceivedTelegram` that returns can have done. -/
theorem SetReceivedTelegram_result (cks : KnxTelegram → Nat) (m : Beyond) (s : Coupler)
    (t : KnxTelegram) (s2 : Coupler) (h : SetReceivedTelegram cks m s t = some s2) :
    s2 = s ∨ (∃ index, s2 = { s with addressedComObjectIndex := index }) ∨
      ∃ index, t.IsChecksumCorrect cks = true ∧ s.evtCallbackFct = true ∧
        s2 = toIdle { stageReceived t { s with addressedComObjectIndex := index } with
          calls := s.calls ++ [Call.event BUSCOUPLER_EVENT_RECEIVED_EIB_TELEGRAM] } := by
  cases hi : IsAddressAssigned s m t.GetTargetAddress with
  | none =>
    rw [SetReceivedTelegram_unresolved cks m s t hi] at h
    exact Or.inl (Option.some.inj h).symm
  | some index =>
    rw [SetReceivedTelegram_resolved cks m s t index hi] at h
    split at h
    · rename_i hc
      obtain ⟨h1, h2⟩ := map_toIdle_emit _ _ _ h
      exact Or.inr (Or.inr ⟨index, hc, h1, h2⟩)
    · exact Or.inr (Or.inl ⟨index, (Option.some.inj h).symm⟩)

/-- C15: no telegram is delivered as TelegramReceived without a valid checksum. When
`SetReceivedTelegram` or `RXTask`, with or without a transmit callback, emits
TelegramReceived, the checksum of the telegram delivered is valid and the reception
buffer holds that telegram when the event is emitted and afterwards; `RXTask` emits it
from ReceptionAddressed only. -/
theorem TelegramReceived_only_validated (cks : KnxTelegram → Nat) (s : Coupler) :
    (∀ (m : Beyond) (t : KnxTelegram) (s2 : Coupler),
      SetReceivedTelegram cks m s t = some s2 →
      Call.event BUSCOUPLER_EVENT_RECEIVED_EIB_TELEGRAM ∈ newCalls s s2 →
      t.IsChecksumCorrect cks = true ∧ s2.rx.receivedTelegram = t ∧
      ∃ a : Coupler, a.rx.receivedTelegram = t ∧
        (emitEvent BUSCOUPLER_EVENT_RECEIVED_EIB_TELEGRAM a).map toIdle = some s2) ∧
    (∀ (micros : Nat) (s2 : Coupler),
      RXTask cks micros s = some s2 →
      Call.event BUSCOUPLER_EVENT_RECEIVED_EIB_TELEGRAM ∈ newCalls s s2 →
      s.rx.state = RX_EIB_TELEGRAM_RECEPTION_ADDRESSED ∧
      s.telegram.IsChecksumCorrect cks = true ∧ s2.rx.receivedTelegram = s.telegram ∧
      ∃ a : Coupler, a.rx.receivedTelegram = s.telegram ∧
        (emitEvent BUSCOUPLER_EVENT_RECEIVED_EIB_TELEGRAM a).map toIdle = some s2) := by
  constructor
  · intro m t s2 h hmem
    rcases SetReceivedTelegram_result cks m s t s2 h with
      rfl | ⟨index, rfl⟩ | ⟨index, hc, hev, rfl⟩
    · rw [newCalls_self] at hmem
      exact absurd hmem (List.not_mem_nil _)
    · have : newCalls s { s with addressedComObjectIndex := index } = [] := by
        simp [newCalls]
      rw [this] at hmem
      exact absurd hmem (List.not_mem_nil _)
    · refine ⟨hc, rfl, stageReceived t { s with addressedComObjectIndex := index }, rfl, ?_⟩
      rw [emitEvent_of_set _ (stageReceived t { s with addressedComObjectIndex := index }) hev]
      rfl
  · intro micros s2 h hmem
    rcases RXTask_result cks micros s s2 h with rfl | rfl | rfl | ⟨hst, hc, hev, rfl⟩
    · rw [newCalls_self] at hmem
      exact absurd hmem (List.not_mem_nil _)
    · have : newCalls s (toIdle s) = [] := by simp [newCalls, toIdle]
      rw [this] at hmem
      exact absurd hmem (List.not_mem_nil _)
    · have : newCalls s (toIdle { s with
          calls := s.calls ++ [Call.event BUSCOUPLER_EVENT_EIB_TELEGRAM_RECEPTION_ERROR] }) =
          [Call.event BUSCOUPLER_EVENT_EIB_TELEGRAM_RECEPTION_ERROR] := by
        simp [newCalls, toIdle]
      rw [this] at hmem
      exact absurd hmem received_ne_error
    · refine ⟨hst, hc, rfl, stageReceived s.telegram s, rfl, ?_⟩
      rw [emitEvent_of_set _ (stageReceived s.telegram s) hev]
      rfl

theorem listeningCoupler_delivery :
    SetReceivedTelegram sumChecksum zeroBeyond listeningCoupler ⟨7, 10, [1], 17⟩ =
      some deliveredCoupler := by
  rfl

theorem TelegramReceived_only_validated_witness :
    SetReceivedTelegram sumChecksum zeroBeyond listeningCoupler ⟨7, 10, [1], 17⟩ =
        some deliveredCoupler ∧
      Call.event BUSCOUPLER_EVENT_RECEIVED_EIB_TELEGRAM ∈
        newCalls listeningCoupler deliveredCoupler ∧
      KnxTelegram.IsChecksumCorrect sumChecksum ⟨7, 10, [1], 17⟩ = true ∧
      deliveredCoupler.rx.receivedTelegram = ⟨7, 10, [1], 17⟩ :=
  ⟨listeningCoupler_delivery, by decide,
    ((TelegramReceived_only_validated sumChecksum listeningCoupler).1 zeroBeyond
      ⟨7, 10, [1], 17⟩ deliveredCoupler listeningCoupler_delivery (by decide)).1,
    ((TelegramReceived_only_validated sumChecksum listeningCoupler).1 zeroBeyond
      ⟨7, 10, [1], 17⟩ deliveredCoupler listeningCoupler_delivery (by decide)).2.1⟩

/-- C19 as the spec states it fails: on a receiver with a transmit callback, in
ReceptionAddressed, the staged telegram with an invalid checksum, the last byte 5000
microseconds old, `RXTask` emits nothing and the state is still ReceptionAddressed, also
after a second run; the same receiver without transmit callback emits one ReceptionError
and returns to IdleWaitingForControlField. -/
theorem RXTask_checksum_failure_counterexample :
    (pushCoupler RX_EIB_TELEGRAM_RECEPTION_ADDRESSED ⟨7, 9, [1], 99⟩).extTxCb.isSome = true ∧
      KnxTelegram.IsChecksumCorrect sumChecksum ⟨7, 9, [1], 99⟩ = false ∧
      TimeDeltaWord (5000 % 65536)
        (pushCoupler RX_EIB_TELEGRAM_RECEPTION_ADDRESSED
          ⟨7, 9, [1], 99⟩).lastByteRxTimeMicrosec > 2000 ∧
      (RXTask sumChecksum 5000
        (pushCoupler RX_EIB_TELEGRAM_RECEPTION_ADDRESSED ⟨7, 9, [1], 99⟩)).map
        (fun s => (s.rx.state, s.calls)) = some (RX_EIB_TELEGRAM_RECEPTION_ADDRESSED, []) ∧
      ((RXTask sumChecksum 5000
        (pushCoupler RX_EIB_TELEGRAM_RECEPTION_ADDRESSED ⟨7, 9, [1], 99⟩)).bind
        (RXTask sumChecksum 9000)).map
        (fun s => (s.rx.state, s.calls)) = some (RX_EIB_TELEGRAM_RECEPTION_ADDRESSED, []) ∧
      (RXTask sumChecksum 5000
        (polledCoupler RX_EIB_TELEGRAM_RECEPTION_ADDRESSED ⟨7, 9, [1], 99⟩ 0)).map
        (fun s => (s.rx.state, s.calls)) =
        some (RX_IDLE_WAITING_FOR_CTRL_FIELD,
          [Call.event BUSCOUPLER_EVENT_EIB_TELEGRAM_RECEPTION_ERROR]) := by
  decide

/-- C19, as the code has it: a checksum failure on an addressed telegram is surfaced by
`RXTask` when no transmit callback is registered. On a receiver in ReceptionAddressed
whose staged telegram has an invalid checksum, without transmit callback, with the event
callback set and the last byte more than 2 ms old, `RXTask` emits one ReceptionError and
nothing else and the reception state becomes IdleWaitingForControlField. With a transmit
callback registered `RXTask` takes its other branch, which emits nothing for such a
receiver and leaves the coupler as it is, whatever the age of the last byte. -/
theorem RXTask_checksum_failure (cks : KnxTelegram → Nat) (micros : Nat) (s : Coupler)
    (hst : s.rx.state = RX_EIB_TELEGRAM_RECEPTION_ADDRESSED)
    (hc : s.telegram.IsChecksumCorrect cks = false) :
    (s.extTxCb = none → s.evtCallbackFct = true →
      TimeDeltaWord (micros % 65536) s.lastByteRxTimeMicrosec > 2000 →
      RXTask cks micros s = some { s with
        calls := s.calls ++ [Call.event BUSCOUPLER_EVENT_EIB_TELEGRAM_RECEPTION_ERROR]
        rx.state := RX_IDLE_WAITING_FOR_CTRL_FIELD }) ∧
    (s.extTxCb.isSome = true → RXTask cks micros s = some s) := by
  constructor
  · intro hpoll hevt hd
    rw [RXTask_polled_eop cks micros s hpoll (by rw [hst]; decide) hd, hst]
    simp only []
    rw [if_neg (by simp [hc]), emitEvent_of_set _ _ hevt]
    rfl
  · intro hcb
    unfold RXTask
    rw [if_pos hcb, hst]
    simp only []
    rw [if_neg (by simp [hc])]

theorem RXTask_checksum_failure_witness :
    (polledCoupler RX_EIB_TELEGRAM_RECEPTION_ADDRESSED ⟨7, 9, [1], 99⟩ 0).rx.state
        = RX_EIB_TELEGRAM_RECEPTION_ADDRESSED ∧
      KnxTelegram.IsChecksumCorrect sumChecksum
        (polledCoupler RX_EIB_TELEGRAM_RECEPTION_ADDRESSED ⟨7, 9, [1], 99⟩ 0).telegram
        = false ∧
      (polledCoupler RX_EIB_TELEGRAM_RECEPTION_ADDRESSED ⟨7, 9, [1], 99⟩ 0).extTxCb = none ∧
      (polledCoupler RX_EIB_TELEGRAM_RECEPTION_ADDRESSED ⟨7, 9, [1], 99⟩ 0).evtCallbackFct
        = true ∧
      TimeDeltaWord (5000 % 65536)
        (polledCoupler RX_EIB_TELEGRAM_RECEPTION_ADDRESSED ⟨7, 9, [1], 99⟩
          0).lastByteRxTimeMicrosec > 2000 ∧
      RXTask sumChecksum 5000
        (polledCoupler RX_EIB_TELEGRAM_RECEPTION_ADDRESSED ⟨7, 9, [1], 99⟩ 0) =
        some { polledCoupler RX_EIB_TELEGRAM_RECEPTION_ADDRESSED ⟨7, 9, [1], 99⟩ 0 with
          calls := [Call.event BUSCOUPLER_EVENT_EIB_TELEGRAM_RECEPTION_ERROR]
          rx.state := RX_IDLE_WAITING_FOR_CTRL_FIELD } :=
  ⟨rfl, by decide, rfl, rfl, by decide,
    (RXTask_checksum_failure sumChecksum 5000
      (polledCoupler RX_EIB_TELEGRAM_RECEPTION_ADDRESSED ⟨7, 9, [1], 99⟩ 0)
      rfl (by decide)).1 rfl rfl (by decide)⟩

/-! ## The transmission task -/

/-- C17 as the spec states it fails: `TXTask` run on a coupler in WaitingAck invokes
no callback and leaves the state WaitingAck, although with the send timestamp 0 and the
clock at 1000 ms the statements after its `return;` would invoke the acknowledgment
callback and go back to Idle. -/
theorem TXTask_timeout_counterexample :
    waitingCoupler.tx.state = TX_WAITING_ACK ∧ waitingCoupler.tx.ackFctPtr = true ∧
      TimeDeltaWord (1000 % 65536) 0 > 500 ∧
      (TXTask waitingCoupler).tx.state = TX_WAITING_ACK ∧
      (TXTask waitingCoupler).calls = [] ∧
      (TXTaskAfterReturn 1000 0 waitingCoupler).map (fun r => (r.1.tx.state, r.1.calls)) =
        some (TX_IDLE, [Call.ack TxAck.NO_ANSWER_TIMEOUT]) := by
  decide

/-- C17, as the code has it: `TXTask` returns at once. Run on a coupler in WaitingAck,
however long after the send timestamp, it invokes no callback and leaves the coupler,
and so the state WaitingAck, as it is. The handling of the timeout, one call of the
acknowledgment callback with NoAnswerTimeout and the return to Idle once more than 500
ms have elapsed, is what the statements after the `return;` would do. -/
theorem TXTask_returns_at_once (s : Coupler) (h : s.tx.state = TX_WAITING_ACK) :
    TXTask s = s ∧ (TXTask s).tx.state = TX_WAITING_ACK ∧ (TXTask s).calls = s.calls ∧
      ∀ millis sent, TimeDeltaWord (millis % 65536) sent > 500 → s.tx.ackFctPtr = true →
        TXTaskAfterReturn millis sent s =
          some ({ s with
            calls := s.calls ++ [Call.ack TxAck.NO_ANSWER_TIMEOUT]
            tx.state := TX_IDLE }, sent) := by
  refine ⟨rfl, h, rfl, ?_⟩
  intro millis sent hd ha
  unfold TXTaskAfterReturn
  rw [h]
  simp only []
  rw [if_pos hd, if_pos ha]

theorem TXTask_returns_at_once_witness :
    waitingCoupler.tx.state = TX_WAITING_ACK ∧ TXTask waitingCoupler = waitingCoupler ∧
      (TXTask waitingCoupler).tx.state = TX_WAITING_ACK :=
  ⟨rfl, (TXTask_returns_at_once waitingCoupler rfl).1,
    (TXTask_returns_at_once waitingCoupler rfl).2.1⟩

/-! ## Reachable couplers -/

theorem AttachComObjectsList_tx (s : Coupler) (ol : Option (List KnxComObject)) (n : Nat) :
    (AttachComObjectsList s ol n).2.tx = s.tx := by
  unfold AttachComObjectsList
  split
  · rfl
  · cases ol with
    | none =>
      simp only []
      split <;> rfl
    | some l =>
      simp only []
      split_ifs <;> rfl

theorem SendTelegram_tx_state (cks : KnxTelegram → Nat) (s : Coupler) (t : KnxTelegram)
    (r : Nat × Coupler × KnxTelegram) (h : SendTelegram cks s t = some r) :
    r.2.1.tx.state = s.tx.state ∨ r.2.1.tx.state = TX_IDLE := by
  unfold SendTelegram at h
  split at h
  · rw [← Option.some.inj h]
    exact Or.inl rfl
  · simp only [] at h
    split at h
    · exact absurd h (by simp)
    · rw [← Option.some.inj h]
      exact Or.inr rfl

theorem RXTask_tx (cks : KnxTelegram → Nat) (micros : Nat) (s s2 : Coupler)
    (h : RXTask cks micros s = some s2) : s2.tx = s.tx := by
  rcases RXTask_result cks micros s s2 h with rfl | rfl | rfl | ⟨-, -, -, rfl⟩ <;> rfl

theorem SetReceivedTelegram_tx (cks : KnxTelegram → Nat) (m : Beyond) (s : Coupler)
    (t : KnxTelegram) (s2 : Coupler) (h : SetReceivedTelegram cks m s t = some s2) :
    s2.tx = s.tx := by
  rcases SetReceivedTelegram_result cks m s t s2 h with
    rfl | ⟨index, rfl⟩ | ⟨index, -, -, rfl⟩ <;> rfl

/-- C18: only the synchronous handoff is active. In every coupler reachable from a
freshly constructed one by `Reset`, `Init`, `AttachComObjectsList`, `SendTelegram`,
`SetReceivedTelegram`, `RXTask` and `TXTask`, the transmission state is Reset, Init or
Idle, never TelegramSendingOngoing or WaitingAck; and `TXTask` leaves every coupler,
its log of callback invocations included, as it is. -/
theorem synchronous_handoff_only (s : Coupler) (h : Reachable s) :
    (s.tx.state = TX_RESET ∨ s.tx.state = TX_INIT ∨ s.tx.state = TX_IDLE) ∧
      s.tx.state ≠ TX_TELEGRAM_SENDING_ONGOING ∧ s.tx.state ≠ TX_WAITING_ACK ∧
      ∀ c : Coupler, TXTask c = c ∧ (TXTask c).calls = c.calls := by
  have key : s.tx.state = TX_RESET ∨ s.tx.state = TX_INIT ∨ s.tx.state = TX_IDLE := by
    induction h with
    | fresh cb pa mode => exact Or.inl rfl
    | reset s _ _ => exact Or.inr (Or.inl rfl)
    | init s _ _ => exact Or.inr (Or.inr rfl)
    | attach s ol n _ ih => rw [AttachComObjectsList_tx]; exact ih
    | send s cks t r _ hr ih =>
      rcases SendTelegram_tx_state cks s t r hr with e | e
      · rw [e]; exact ih
      · exact Or.inr (Or.inr e)
    | received s cks m t s2 _ hr ih => rw [SetReceivedTelegram_tx cks m s t s2 hr]; exact ih
    | rxTask s cks micros s2 _ hr ih => rw [RXTask_tx cks micros s s2 hr]; exact ih
    | txTask s _ ih => exact ih
    | outside s s2 _ htx ih => rw [htx]; exact ih
  refine ⟨key, ?_, ?_, fun c => ⟨rfl, rfl⟩⟩
  · rcases key with e | e | e <;> rw [e] <;> decide
  · rcases key with e | e | e <;> rw [e] <;> decide

theorem sentCoupler_reachable :
    ∀ r, SendTelegram sumChecksum (Init (Reset (StKnxCoupler (some (fun _ => 0)) 0x1101 0)).2).2
      foreignTelegram = some r → Reachable r.2.1 :=
  fun r hr => Reachable.send _ sumChecksum foreignTelegram r
    (Reachable.init _ (Reachable.reset _ (Reachable.fresh _ _ _))) hr

theorem synchronous_handoff_only_witness :
    ∃ r, SendTelegram sumChecksum (Init (Reset (StKnxCoupler (some (fun _ => 0)) 0x1101 0)).2).2
        foreignTelegram = some r ∧ Reachable r.2.1 ∧ r.2.1.tx.state = TX_IDLE ∧
      r.2.1.tx.state ≠ TX_WAITING_ACK :=
  ⟨(0, { (Init (Reset (StKnxCoupler (some (fun _ => 0)) 0x1101 0)).2).2 with
      calls := [Call.transmit ⟨0x1101, 9, [1, 2], 10⟩] }, ⟨0x1101, 9, [1, 2], 10⟩),
    rfl, sentCoupler_reachable _ rfl, rfl,
    (synchronous_handoff_only _ (sentCoupler_reachable _ rfl)).2.2.1⟩

/-! ## The claims on checked indexing -/

/-- C20 at its failing input. With the one-object list attached the table is the
one-byte block [0]; the search for address 7, which is not attached, passes position 0
and then reads `_orderedIndexTable[1]`, outside the block, before it tests
`i <= searchIndexStop`: with checked indexing the search fails, and so does the search
for address 20 on the list of spec §8. The search for the attached address 5 stays
inside. -/
theorem IsAddressAssigned_reads_past_table :
    (AttachComObjectsList resetCoupler (some singleObject) 1).2.orderedIndexTable
        = some [0] ∧
      (AttachComObjectsList resetCoupler (some singleObject) 1).2.assignedComObjectsNb = 1 ∧
      scanLoop (AttachComObjectsList resetCoupler (some singleObject) 1).2 zeroBeyond 7 0
        256 0 = 1 ∧
      tableAt? (AttachComObjectsList resetCoupler (some singleObject) 1).2 1 = none ∧
      IsAddressAssignedChecked (AttachComObjectsList resetCoupler (some singleObject) 1).2 7
        = none ∧
      IsAddressAssignedChecked (AttachComObjectsList resetCoupler (some singleObject) 1).2 5
        = some (some 0) ∧
      IsAddressAssignedChecked (AttachComObjectsList resetCoupler (some specExample) 4).2 20
        = none := by
  decide

theorem tableAt_of_checked (s : Coupler) (m : Beyond) (i e : Nat)
    (h : tableAt? s i = some e) : tableAt s m i = e := by
  unfold tableAt? at h
  unfold tableAt
  cases ht : s.orderedIndexTable with
  | none => rw [ht] at h; exact absurd h (by simp)
  | some tbl =>
    rw [ht] at h
    simp only [] at h ⊢
    simp [List.getD_eq_getElem?_getD, h]

theorem addrAt_of_checked (s : Coupler) (m : Beyond) (k a : Nat)
    (h : addrAt? s k = some a) : addrAt s m k = a := by
  unfold addrAt? at h
  unfold addrAt
  cases hl : s.comObjectsList with
  | none => rw [hl] at h; exact absurd h (by simp)
  | some l =>
    rw [hl] at h
    simp only [] at h ⊢
    split at h
    · rename_i hk
      rw [if_pos hk]
      exact Option.some.inj h
    · exact absurd h (by simp)

theorem reduceLoop_of_checked (s : Coupler) (m : Beyond) (addr dc start stop range : Nat)
    (r : Nat × Nat) (h : reduceLoopChecked s addr dc start stop range = some r) :
    reduceLoop s m addr dc start stop range = r := by
  induction dc generalizing start stop range with
  | zero =>
    exact Option.some.inj h
  | succ dc ih =>
    rw [reduceLoopChecked] at h
    rw [reduceLoop]
    cases ht : tableAt? s (start + range >>> 1) with
    | none => rw [ht] at h; exact absurd h (by simp)
    | some e =>
      rw [ht] at h
      simp only [] at h
      rw [tableAt_of_checked s m _ e ht]
      by_cases he : e ≠ 255
      · rw [if_pos he] at h
        cases ha : addrAt? s e with
        | none => rw [ha] at h; exact absurd h (by simp)
        | some a =>
          rw [ha] at h
          simp only [] at h
          rw [addrAt_of_checked s m e a ha]
          by_cases hge : addr ≥ a
          · rw [if_pos hge] at h
            rw [if_pos ⟨he, hge⟩]
            exact ih _ _ _ h
          · rw [if_neg hge] at h
            rw [if_neg (fun hc => hge hc.2)]
            exact ih _ _ _ h
      · rw [if_neg he] at h
        rw [if_neg (fun hc => he hc.1)]
        exact ih _ _ _ h

theorem scanLoop_of_checked (s : Coupler) (m : Beyond) (addr stop fuel i r : Nat)
    (h : scanLoopChecked s addr stop fuel i = some r) :
    scanLoop s m addr stop fuel i = r := by
  induction fuel generalizing i with
  | zero =>
    exact Option.some.inj h
  | succ fuel ih =>
    rw [scanLoopChecked] at h
    rw [scanLoop]
    cases ht : tableAt? s i with
    | none => rw [ht] at h; exact absurd h (by simp)
    | some e =>
      rw [ht] at h
      simp only [] at h
      rw [tableAt_of_checked s m _ e ht]
      by_cases he : e ≠ 255 ∧ e ≤ s.assignedComObjectsNb
      · rw [if_pos he] at h
        cases ha : addrAt? s e with
        | none => rw [ha] at h; exact absurd h (by simp)
        | some a =>
          rw [ha] at h
          simp only [] at h
          rw [addrAt_of_checked s m e a ha]
          by_cases hc : a ≠ addr ∧ i ≤ stop
          · rw [if_pos hc] at h
            rw [if_pos ⟨he.1, he.2, hc.1, hc.2⟩]
            exact ih _ h
          · rw [if_neg hc] at h
            rw [if_neg (fun hh => hc ⟨hh.2.2.1, hh.2.2.2⟩)]
            exact Option.some.inj h
      · rw [if_neg he] at h
        rw [if_neg (fun hh => he ⟨hh.1, hh.2.1⟩)]
        exact Option.some.inj h

/-- When no read falls outside its block, the search with checked indexing gives the
result of `IsAddressAssigned`, whatever lies beyond the blocks. -/
theorem IsAddressAssigned_of_checked (s : Coupler) (m : Beyond) (addr : Nat)
    (r : Option Nat) (h : IsAddressAssignedChecked s addr = some r) :
    IsAddressAssigned s m addr = r := by
  unfold IsAddressAssignedChecked at h
  unfold IsAddressAssigned
  by_cases h0 : s.assignedComObjectsNb = 0
  · rw [if_pos h0] at h
    rw [if_pos h0]
    exact Option.some.inj h
  · rw [if_neg h0] at h
    rw [if_neg h0]
    simp only [] at h ⊢
    cases hr : reduceLoopChecked s addr (divisionLoop s.assignedComObjectsNb 256 4 0) 0
        ((s.assignedComObjectsNb + 255) % 256) s.assignedComObjectsNb with
    | none => rw [hr] at h; exact absurd h (by simp)
    | some rr =>
      rw [hr] at h
      simp only [] at h
      rw [reduceLoop_of_checked s m _ _ _ _ _ rr hr]
      cases hs : scanLoopChecked s addr rr.2 256 rr.1 with
      | none => rw [hs] at h; exact absurd h (by simp)
      | some i =>
        rw [hs] at h
        simp only [] at h
        rw [scanLoop_of_checked s m _ _ _ _ i hs]
        by_cases hi : i > rr.2
        · rw [if_pos hi] at h
          rw [if_pos hi]
          exact Option.some.inj h
        · rw [if_neg hi] at h
          rw [if_neg hi]
          cases ht : tableAt? s i with
          | none => rw [ht] at h; exact absurd h (by simp)
          | some e =>
            rw [ht] at h
            rw [tableAt_of_checked s m i e ht]
            exact Option.some.inj h

theorem Attached.tableAt?_eq (s : Coupler) (l : List KnxComObject) (tbl : List Nat)
    (h : Attached s l tbl) (p : Nat) (hp : p < tbl.length) :
    tableAt? s p = some (tbl.getD p 255) := by
  unfold StKnx.tableAt?
  rw [h.table]
  simp [List.getD_eq_getElem?_getD, List.getElem?_eq_getElem hp]

theorem Attached.addrAt?_eq (s : Coupler) (l : List KnxComObject) (tbl : List Nat)
    (h : Attached s l tbl) (k : Nat) (hk : k < l.length) :
    addrAt? s k = some (ADDR l k) := by
  unfold StKnx.addrAt?
  rw [h.list]
  simp [hk]

/-- On an attached table the halving steps read inside the blocks only. -/
theorem Attached.reduceLoopChecked_eq (s : Coupler) (l : List KnxComObject)
    (tbl : List Nat) (h : Attached s l tbl) (m : Beyond) (addr dc start stop range : Nat)
    (h1 : start ≤ stop) (h3 : stop < tbl.length) (h4 : start + range ≤ stop + 1) :
    reduceLoopChecked s addr dc start stop range =
      some (reduceLoop s m addr dc start stop range) := by
  have hlen := h.length_le
  have hsz := h.size
  induction dc generalizing start stop range with
  | zero => rfl
  | succ dc ih =>
    rw [reduceLoopChecked, reduceLoop]
    have hr : range >>> 1 = range / 2 := by
      rw [Nat.shiftRight_eq_div_pow]
    simp only [hr]
    have hmidlt : start + range / 2 < tbl.length := by omega
    rw [h.tableAt?_eq s l tbl _ hmidlt, h.tableAt_eq s l tbl m _ hmidlt]
    obtain ⟨he1, -, -⟩ := h.ok.entry _ hmidlt
    rw [h.addrAt_eq s l tbl m _ he1]
    simp only []
    rw [if_pos (by omega), h.addrAt?_eq s l tbl _ he1]
    simp only []
    have e1 : (start + range / 2) % 256 = start + range / 2 := Nat.mod_eq_of_lt (by omega)
    have e2 : (stop + 256 - range / 2) % 256 = stop - range / 2 := by omega
    rw [e1, e2]
    by_cases hge : addr ≥ ADDR l (tbl.getD (start + range / 2) 255)
    · rw [if_pos hge, if_pos ⟨by omega, hge⟩]
      exact ih _ _ _ (by omega) h3 (by omega)
    · rw [if_neg hge, if_neg (fun hc => hge hc.2)]
      exact ih _ _ _ (by omega) (by omega) (by omega)

/-- On an attached table a final scan that ends inside the table has read inside the
blocks only. -/
theorem Attached.scanLoopChecked_eq (s : Coupler) (l : List KnxComObject)
    (tbl : List Nat) (h : Attached s l tbl) (m : Beyond) (addr stop fuel i : Nat)
    (h1 : i ≤ stop + 1) (h3 : stop < tbl.length)
    (hres : scanLoop s m addr stop fuel i < tbl.length) :
    scanLoopChecked s addr stop fuel i = some (scanLoop s m addr stop fuel i) := by
  have hlen := h.length_le
  have hsz := h.size
  induction fuel generalizing i with
  | zero => rfl
  | succ fuel ih =>
    have hil : i < tbl.length := by
      by_contra hge
      have hi : ¬ i ≤ stop := by omega
      rw [scanLoop, if_neg (fun hc => hi hc.2.2.2)] at hres
      exact hge hres
    rw [scanLoop] at hres
    rw [scanLoopChecked, scanLoop]
    rw [h.tableAt?_eq s l tbl _ hil]
    rw [h.tableAt_eq s l tbl m _ hil] at hres ⊢
    obtain ⟨he1, -, -⟩ := h.ok.entry _ hil
    rw [h.addrAt_eq s l tbl m _ he1] at hres ⊢
    simp only []
    have e : (i + 1) % 256 = i + 1 := Nat.mod_eq_of_lt (by omega)
    rw [e] at hres ⊢
    by_cases he : tbl.getD i 255 ≠ 255 ∧ tbl.getD i 255 ≤ s.assignedComObjectsNb
    · rw [if_pos he, h.addrAt?_eq s l tbl _ he1]
      simp only []
      by_cases hc : ADDR l (tbl.getD i 255) ≠ addr ∧ i ≤ stop
      · rw [if_pos hc, if_pos ⟨he.1, he.2, hc.1, hc.2⟩]
        rw [if_pos ⟨he.1, he.2, hc.1, hc.2⟩] at hres
        exact ih _ (by omega) hres
      · rw [if_neg hc, if_neg (fun hh => hc ⟨hh.2.2.1, hh.2.2.2⟩)]
    · rw [if_neg he, if_neg (fun hh => he ⟨hh.1, hh.2.1⟩)]

/-- On an attached table a search that returns true has read inside the blocks only:
the read outside happens on searches that return false. -/
theorem Attached.checked_of_found (s : Coupler) (l : List KnxComObject) (tbl : List Nat)
    (h : Attached s l tbl) (m : Beyond) (addr : Nat)
    (hf : IsAddressAssigned s m addr ≠ none) :
    IsAddressAssignedChecked s addr = some (IsAddressAssigned s m addr) := by
  have hlen := h.length_le
  have hsz := h.size
  have hnb := h.nb
  unfold IsAddressAssigned at hf ⊢
  unfold IsAddressAssignedChecked
  by_cases h0 : s.assignedComObjectsNb = 0
  · rw [if_pos h0, if_pos h0]
  · rw [if_neg h0] at hf ⊢
    rw [if_neg h0]
    simp only [] at hf ⊢
    have e : (s.assignedComObjectsNb + 255) % 256 = tbl.length - 1 := by omega
    rw [e] at hf ⊢
    obtain ⟨-, r2, r3⟩ := h.reduceLoop_beyond s l tbl m m addr
      (divisionLoop s.assignedComObjectsNb 256 4 0) 0 (tbl.length - 1) s.assignedComObjectsNb
      (by omega) (by omega) (by omega)
    rw [h.reduceLoopChecked_eq s l tbl m addr _ 0 (tbl.length - 1) _
      (by omega) (by omega) (by omega)]
    simp only []
    by_cases hi : scanLoop s m addr
        (reduceLoop s m addr (divisionLoop s.assignedComObjectsNb 256 4 0) 0
          (tbl.length - 1) s.assignedComObjectsNb).2 256
        (reduceLoop s m addr (divisionLoop s.assignedComObjectsNb 256 4 0) 0
          (tbl.length - 1) s.assignedComObjectsNb).1 >
        (reduceLoop s m addr (divisionLoop s.assignedComObjectsNb 256 4 0) 0
          (tbl.length - 1) s.assignedComObjectsNb).2
    · rw [if_pos hi] at hf
      exact absurd rfl hf
    · have hlt : scanLoop s m addr
          (reduceLoop s m addr (divisionLoop s.assignedComObjectsNb 256 4 0) 0
            (tbl.length - 1) s.assignedComObjectsNb).2 256
          (reduceLoop s m addr (divisionLoop s.assignedComObjectsNb 256 4 0) 0
            (tbl.length - 1) s.assignedComObjectsNb).1 < tbl.length := by omega
      rw [h.scanLoopChecked_eq s l tbl m addr _ 256 _ (Nat.le_succ_of_le r2) r3 hlt]
      simp only []
      rw [if_neg hi, if_neg hi, h.tableAt?_eq s l tbl _ hlt, h.tableAt_eq s l tbl m _ hlt]
      rfl

theorem RXTask_consistent (cks : KnxTelegram → Nat) (micros : Nat) (s s2 : Coupler)
    (hc : s.Consistent) (h : RXTask cks micros s = some s2) : s2.Consistent := by
  rcases RXTask_result cks micros s s2 h with rfl | rfl | rfl | ⟨-, -, -, rfl⟩ <;> exact hc

theorem SetReceivedTelegram_consistent (cks : KnxTelegram → Nat) (m : Beyond) (s : Coupler)
    (t : KnxTelegram) (s2 : Coupler) (hc : s.Consistent)
    (h : SetReceivedTelegram cks m s t = some s2) : s2.Consistent := by
  rcases SetReceivedTelegram_result cks m s t s2 h with
    rfl | ⟨index, rfl⟩ | ⟨index, -, -, rfl⟩ <;> exact hc

theorem TXTask_consistent (s : Coupler) (hc : s.Consistent) : (TXTask s).Consistent := hc

end StKnx
